import Mathlib

/-!
# gladius-common: account manager and balance normalisation

A shallow embedding of `pkg/blockchain/account.go`.

* The go-ethereum keystore is an external collaborator.  It is modelled as an
  abstract state `σ` together with a record of its operations
  (`KeyStore σ`); every operation that may touch the key directory threads the
  state explicitly.
* Go's `error` is the type `GoError`; a nil error is `none`.
* A Go function returning `(T, error)` returns a pair `T × Option GoError`.
-/

namespace blockchain

/-! ## Errors -/

/-- The two failure kinds of the `strconv` number parsers. -/
inductive NumErrKind where
  | ErrSyntax
  | ErrRange
deriving DecidableEq, Repr

/-- Go error values that occur in this package. -/
inductive GoError where
  /-- Result of `errors.New(text)`. -/
  | errorsNew (text : String)
  /-- A `*strconv.NumError` with the function name, the input and the kind. -/
  | numError (fn : String) (num : String) (kind : NumErrKind)
  /-- An error produced by an external library (keystore, HTTP transport). -/
  | foreign (text : String)
deriving DecidableEq, Repr

/-! ## The keystore backend -/

/-- The type `accounts.Account`: an address and the location of the key file.
The address (20 bytes) is a natural number, the zero value is address 0 with
an empty URL. -/
structure Account where
  Address : Nat := 0
  URL : String := ""
deriving DecidableEq, Repr

/-- Operations of `*keystore.KeyStore` used by the account manager, over an
abstract keystore state `σ`. -/
structure KeyStore (σ : Type) where
  /-- The method `Accounts()`: the accounts present in the key directory. -/
  Accounts : σ → List Account
  /-- The method `Unlock(a, passphrase)`: new state and the error (nil on success). -/
  Unlock : σ → Account → String → σ × Option GoError
  /-- The method `NewAccount(passphrase)`: new state, created account and error. -/
  NewAccount : σ → String → σ × (Account × Option GoError)

/-- The account manager holds (a pointer to) one keystore. -/
structure GladiusAccountManager (σ : Type) where
  keystore : σ

variable {σ : Type}

/-- Checks if AccountManager has an account: `len(ga.keystore.Accounts()) > 0`. -/
def HasAccount (K : KeyStore σ) (ga : GladiusAccountManager σ) : Bool :=
  decide ((K.Accounts ga.keystore).length > 0)

/-- Keystore gets the keystore associated with the account manager. -/
def Keystore (ga : GladiusAccountManager σ) : σ :=
  ga.keystore

/-- GetAccount gets the first account of the keystore, or fails when the
keystore lists none. -/
def GetAccount (K : KeyStore σ) (ga : GladiusAccountManager σ) : Except GoError Account :=
  let store := Keystore ga
  if h : (K.Accounts store).length < 1 then
    Except.error (GoError.errorsNew "account retrieval error, no existing accounts found")
  else
    let account := (K.Accounts store).get ⟨0, by omega⟩
    Except.ok account

/-- UnlockAccount unlocks the account: the keystore state afterwards and the
returned pair `(bool, error)`. -/
def UnlockAccount (K : KeyStore σ) (ga : GladiusAccountManager σ) (passphrase : String) :
    σ × (Bool × Option GoError) :=
  match GetAccount K ga with
  | Except.error err => (ga.keystore, (false, some err))
  | Except.ok account =>
    match K.Unlock (Keystore ga) account passphrase with
    | (st, none) => (st, (true, none))
    | (st, some err) => (st, (false, some err))

/-- CreateAccount will create an account if there isn't one already: the
keystore state afterwards and the returned pair `(accounts.Account, error)`. -/
def CreateAccount (K : KeyStore σ) (ga : GladiusAccountManager σ) (passphrase : String) :
    σ × (Account × Option GoError) :=
  let ks := Keystore ga
  if (K.Accounts (Keystore ga)).length < 1 then
    K.NewAccount ks passphrase
  else
    (ks, (({} : Account), some (GoError.errorsNew "gladius account already exists")))

/-! ## A concrete keystore used to evaluate the operations

The state is the list of stored accounts, each with the passphrase that
decrypts it, and the number of `Unlock` calls received so far. -/

/-- State of the example keystore. -/
structure DemoStore where
  entries : List (Account × String)
  unlockCalls : Nat
deriving DecidableEq, Repr

/-- The error go-ethereum returns for a wrong passphrase. -/
def ErrDecrypt : GoError :=
  GoError.foreign "could not decrypt key with given password"

/-- Example keystore: `Unlock` compares the passphrase with the stored one and
counts its invocations; `NewAccount` appends an account. -/
def demoKeyStore : KeyStore DemoStore where
  Accounts := fun st => st.entries.map Prod.fst
  Unlock := fun st a p =>
    ({ st with unlockCalls := st.unlockCalls + 1 },
      if (a, p) ∈ st.entries then none else some ErrDecrypt)
  NewAccount := fun st p =>
    let a : Account := { Address := st.entries.length + 1, URL := "keystore" }
    ({ st with entries := st.entries ++ [(a, p)] }, (a, none))

/-- An account of the examples. -/
def acctA : Account := { Address := 10, URL := "a" }

/-- Another account of the examples. -/
def acctB : Account := { Address := 11, URL := "b" }

/-- Example keystore state with one account, protected by "secret". -/
def oneAccount : GladiusAccountManager DemoStore :=
  { keystore := { entries := [(acctA, "secret")], unlockCalls := 0 } }

/-- Example keystore state with two accounts. -/
def twoAccounts : GladiusAccountManager DemoStore :=
  { keystore := { entries := [(acctA, "secret"), (acctB, "other")], unlockCalls := 0 } }

/-- Example keystore state with no account. -/
def noAccount : GladiusAccountManager DemoStore :=
  { keystore := { entries := [], unlockCalls := 0 } }

/-! ## Balances

A finite `float64` is the rational number it denotes.  Every floating-point
operation of the source (the conversion `float64(balanceInt)`, the divisions
and the multiplications) is the exact operation followed by `binary64`, the
IEEE 754 rounding to the nearest float64, ties to even. -/

/-- The type `BalanceType` is an `int32`; its values are integers. -/
abbrev BalanceType := Int

/-- Constant `ETH BalanceType = 0`. -/
def ETH : BalanceType := 0

/-- Constant `GLA BalanceType = 1`. -/
def GLA : BalanceType := 1

/-- Display form of a balance; `Value` is the rational denoted by the float64. -/
structure PrettyBalance where
  Value : ℚ
  Symbol : String
  Name : String
deriving DecidableEq, Repr

/-- A balance snapshot; the zero value is `Balance{}`. -/
structure Balance where
  RawValue : Nat := 0
  BalanceType : blockchain.BalanceType := 0
  PrettyBalance : Option blockchain.PrettyBalance := none
  UsdBalance : Option blockchain.PrettyBalance := none
deriving DecidableEq, Repr

/-- The local type `etherscanResult`, all fields initially empty. -/
structure etherscanResult where
  Status : String := ""
  Message : String := ""
  Result : String := ""
deriving DecidableEq, Repr

/-- An `*http.Response` as far as the source uses it: the bytes that
`ioutil.ReadAll(resp.Body)` yields (the source discards the error of the read). -/
structure Response where
  Body : ByteArray

/-- The value `common.Address` as far as the source uses it: its rendering
`address.String()`. -/
structure Address where
  String : String

/-- What a call of a Go function that may panic does: it returns its pair
`(value, error)`, or the goroutine panics. -/
inductive Outcome (α : Type) where
  | returns (value : α) (err : Option GoError)
  | panics
deriving DecidableEq, Repr

/-! ### `strconv.ParseUint(s, 10, 64)` -/

/-- Largest `uint64`: `1<<64 - 1`. -/
def maxUint64 : Nat := 2 ^ 64 - 1

/-- The helper `lower(c)` of `strconv`: `c | ('x' - 'X')`. -/
def lower (c : Nat) : Nat := c ||| 0x20

/-- The digit `switch` in the loop of `strconv.ParseUint` for a base other than
0: the value of the digit, or `none` in the `default` case. -/
def digitValue (c : Nat) : Option Nat :=
  if 48 ≤ c ∧ c ≤ 57 then some (c - 48)
  else if 97 ≤ lower c ∧ lower c ≤ 122 then some (lower c - 97 + 10)
  else none

/-- The loop of `strconv.ParseUint` for base 10 and bit size 64, from the
accumulator `n` over the remaining characters.  `uint64` arithmetic wraps
modulo `2 ^ 64`.  The source loop ranges over the bytes of the string; a
character outside ASCII is encoded by bytes above 127, which take the `default`
case exactly as the character does here. -/
def parseUintLoop (s0 : String) : List Char → Nat → Nat × Option GoError
  | [], n => (n, none)
  | c :: cs, n =>
    match digitValue c.toNat with
    | none => (0, some (GoError.numError "ParseUint" s0 NumErrKind.ErrSyntax))
    | some d =>
      if d ≥ 10 then
        (0, some (GoError.numError "ParseUint" s0 NumErrKind.ErrSyntax))
      else if n ≥ maxUint64 / 10 + 1 then
        (maxUint64, some (GoError.numError "ParseUint" s0 NumErrKind.ErrRange))
      else
        let n10 := (n * 10) % 2 ^ 64
        let n1 := (n10 + d) % 2 ^ 64
        if n1 < n10 ∨ n1 > maxUint64 then
          (maxUint64, some (GoError.numError "ParseUint" s0 NumErrKind.ErrRange))
        else
          parseUintLoop s0 cs n1

/-- The call `strconv.ParseUint(s, 10, 64)`. -/
def ParseUint (s : String) : Nat × Option GoError :=
  if s = "" then
    (0, some (GoError.numError "ParseUint" s NumErrKind.ErrSyntax))
  else
    parseUintLoop s s.toList 0

/-! ### float64 arithmetic and `math.Round` -/

/-- The integer nearest to `x`, the even one at a tie. -/
def roundHalfEven (x : ℚ) : ℤ :=
  if x - ⌊x⌋ < 1 / 2 then ⌊x⌋
  else if 1 / 2 < x - ⌊x⌋ then ⌊x⌋ + 1
  else if ⌊x⌋ % 2 = 0 then ⌊x⌋ else ⌊x⌋ + 1

/-- The float64 that an exact result `q` is rounded to: the nearest multiple of
`2 ^ e`, ties to the even multiple, where `e` is the exponent of the 53-bit
significand of `q` (`2 ^ (e + 52) ≤ |q| < 2 ^ (e + 53)`), and `e = -1074` in the
subnormal range.  Overflow to infinity (results of magnitude `2 ^ 1024` or
more) does not occur in this program, whose amounts are below `2 ^ 64`, and is
not modelled.  That this is the rounding of IEEE 754 is the theorem
`binary64_roundsTo`. -/
def binary64 (q : ℚ) : ℚ :=
  if q = 0 then 0
  else
    let e : ℤ := max (Int.log 2 |q| - 52) (-1074)
    (roundHalfEven (q / 2 ^ e) : ℚ) * 2 ^ e

/-- The exponent of the last place of the float64 format at `q`. -/
def ulpExponent (q : ℚ) : ℤ := max (Int.log 2 |q| - 52) (-1074)

/-- A finite float64: a significand below `2 ^ 53` in magnitude and an
exponent from -1074 to 971. -/
def IsFloat64 (x : ℚ) : Prop :=
  ∃ m e : ℤ, |m| < 2 ^ 53 ∧ -1074 ≤ e ∧ e ≤ 971 ∧ x = (m : ℚ) * 2 ^ e

/-- The rounding of IEEE 754, stated without reference to `binary64`: `x` is a
float64, no float64 is nearer to `q`, and if another float64 is as near then
`x` is the one with the even significand (an even multiple of their distance). -/
def RoundsTo (q x : ℚ) : Prop :=
  IsFloat64 x ∧ (∀ y, IsFloat64 y → |x - q| ≤ |y - q|) ∧
    (∀ y, IsFloat64 y → y ≠ x → |y - q| = |x - q| → ∃ n : ℤ, x = 2 * n * |y - x|)

/-- The function `math.Round`: the nearest integer, halves away from zero.  Its
result is exact: the nearest integer of a float64 is a float64. -/
def mathRound (x : ℚ) : ℚ :=
  if x < 0 then -((⌊-x + 1 / 2⌋ : ℤ) : ℚ) else ((⌊x + 1 / 2⌋ : ℤ) : ℚ)

/-! ### GetAccountBalance -/

/-- URL of the balance query for the primary currency. -/
def ethBalanceURL (address : Address) : String :=
  "https://api.etherscan.io/api?module=account&action=balance&address=" ++ address.String ++
    "&tag=latest&apikey=3VRW685YYESSYIFVND3DVN9ZNF4BTT1GB8"

/-- URL of the balance query for the platform token. -/
def glaBalanceURL (address : Address) : String :=
  let glaTokenAddress := "0x71d01db8d6a2fbea7f8d434599c237980c234e4c"
  "https://api.etherscan.io/api?module=account&action=tokenbalance&contractaddress=" ++
    glaTokenAddress ++ "&address=" ++ address.String ++
    "&apikey=3VRW685YYESSYIFVND3DVN9ZNF4BTT1GB8"

/-- The pair `(resp, err)` assigned from `http.Get(url)`: a non-nil response
with a nil error, or a non-nil error. -/
def assignGet (r : Except GoError Response) : Option Response × Option GoError :=
  match r with
  | Except.ok resp => (some resp, none)
  | Except.error e => (none, some e)

/-- GetAccountBalance.  The HTTP transport `httpGet` and the JSON decoder
`jsonUnmarshal` (which fills the given struct from the body; the source drops
its error) are external and taken as parameters.  The constants
10000000000000000000, 100000000, 1000 and 100 are float64 values exactly. -/
def GetAccountBalance (httpGet : String → Except GoError Response)
    (jsonUnmarshal : ByteArray → etherscanResult → etherscanResult)
    (address : Address) (symbol : BalanceType) : Outcome Balance :=
  -- var resp *http.Response; var err error; var symbolString, symbolName string
  let init : (Option Response × Option GoError) × (String × String) := ((none, none), ("", ""))
  let afterSwitch :=
    if symbol = ETH then (assignGet (httpGet (ethBalanceURL address)), ("ETH", "Ethereum"))
    else if symbol = GLA then (assignGet (httpGet (glaBalanceURL address)), ("GLA", "Gladius"))
    else init
  let resp := afterSwitch.1.1
  let err := afterSwitch.1.2
  let symbolString := afterSwitch.2.1
  let symbolName := afterSwitch.2.2
  match err with
  | some e => Outcome.returns {} (some e)
  | none =>
    match resp with
    | none => Outcome.panics -- resp.Body on a nil pointer
    | some resp =>
      let body := resp.Body
      let result := jsonUnmarshal body {}
      let parsed := ParseUint result.Result
      let balanceInt := parsed.1
      match parsed.2 with
      | some e => Outcome.returns {} (some e)
      | none =>
        let floatMoved : ℚ := binary64 1.0
        let floatBalance : ℚ := binary64 (mathRound (binary64 (floatMoved * 100)) / 100)
        let floatBalance : ℚ :=
          if symbol = ETH then
            let floatMoved : ℚ := binary64 (binary64 (balanceInt : ℚ) / 10000000000000000000)
            binary64 (mathRound (binary64 (floatMoved * 1000)) / 100)
          else if symbol = GLA then
            let floatMoved : ℚ := binary64 (binary64 (balanceInt : ℚ) / 100000000)
            binary64 (mathRound (binary64 (floatMoved * 100)) / 100)
          else floatBalance
        let balance : Balance :=
          { RawValue := balanceInt
            BalanceType := symbol
            PrettyBalance := some
              { Value := floatBalance
                Symbol := symbolString
                Name := symbolName } }
        Outcome.returns balance none

/-! ### Reference notions for the parser and example transports -/

/-- Value of a string of decimal digits read from the accumulator `n`. -/
def decimalFrom (n : Nat) (cs : List Char) : Nat :=
  cs.foldl (fun acc c => 10 * acc + (c.toNat - 48)) n

/-- Value of a string of decimal digits. -/
def decimalValue (s : String) : Nat :=
  decimalFrom 0 s.toList

/-- Every character is one of `0` .. `9`. -/
def AllDigits (cs : List Char) : Prop :=
  ∀ c ∈ cs, 48 ≤ c.toNat ∧ c.toNat ≤ 57

instance (cs : List Char) : Decidable (AllDigits cs) := by
  unfold AllDigits; infer_instance

/-- The string is a base-10 unsigned integer below `2 ^ 64`: it is not empty,
consists of decimal digits only, and its value fits in 64 bits. -/
def IsDecimalUint64 (s : String) : Prop :=
  s ≠ "" ∧ AllDigits s.toList ∧ decimalValue s < 2 ^ 64

instance (s : String) : Decidable (IsDecimalUint64 s) := by
  unfold IsDecimalUint64; infer_instance

/-- The character of the decimal digit `d`. -/
def digitChar (d : Nat) : Char := Char.ofNat (d + 48)

/-- The decimal digits of `n`, most significant first; one zero for 0. -/
def decimalChars (n : Nat) : List Char :=
  if n = 0 then [digitChar 0] else (Nat.digits 10 n).reverse.map digitChar

/-- The decimal rendering of `n`, without sign or leading zeros. -/
def decimalString (n : Nat) : String := String.mk (decimalChars n)

/-- The balance query for `symbol` was answered by the response `resp` (with a
nil transport error). -/
def Answered (httpGet : String → Except GoError Response) (address : Address)
    (symbol : BalanceType) (resp : Response) : Prop :=
  (symbol = ETH ∧ httpGet (ethBalanceURL address) = Except.ok resp) ∨
  (symbol = GLA ∧ httpGet (glaBalanceURL address) = Except.ok resp)

/-- Example transport: every request is answered with the body `body`. -/
def replyWith (body : String) : String → Except GoError Response :=
  fun _ => Except.ok { Body := body.toUTF8 }

/-- Example decoder: the `result` field of every body is `result`. -/
def resultIs (result : String) : ByteArray → etherscanResult → etherscanResult :=
  fun _ r => { r with Result := result }

/-- Example decoder: nothing is decoded and the struct is left as it was, as
for a body that is not valid JSON or has no `result` field. -/
def decodeNothing : ByteArray → etherscanResult → etherscanResult :=
  fun _ r => r

/-- Example address. -/
def addr0 : Address := { String := "0x0000000000000000000000000000000000000000" }

/-! ## Theorems: the credential vault -/

theorem GetAccount_of_nil (K : KeyStore σ) (ga : GladiusAccountManager σ)
    (h : K.Accounts ga.keystore = []) :
    GetAccount K ga =
      Except.error (GoError.errorsNew "account retrieval error, no existing accounts found") := by
  simp [GetAccount, Keystore, h]

theorem GetAccount_of_cons (K : KeyStore σ) (ga : GladiusAccountManager σ)
    (a : Account) (rest : List Account) (h : K.Accounts ga.keystore = a :: rest) :
    GetAccount K ga = Except.ok a := by
  unfold GetAccount Keystore
  have hlen : ¬ (K.Accounts ga.keystore).length < 1 := by simp [h]
  rw [dif_neg hlen]
  simp [h]

/-- C1. Whenever the keystore already lists at least one account, CreateAccount
returns the empty account together with the non-nil error "gladius account
already exists", and the keystore state is the one it started from: no backend
operation that could add or overwrite an account is performed. -/
theorem CreateAccount_existing (K : KeyStore σ) (ga : GladiusAccountManager σ)
    (passphrase : String) (h : 1 ≤ (K.Accounts ga.keystore).length) :
    CreateAccount K ga passphrase =
        (ga.keystore, (({} : Account), some (GoError.errorsNew "gladius account already exists")))
      ∧ (CreateAccount K ga passphrase).2.2 ≠ none
      ∧ (CreateAccount K ga passphrase).2.1 = { Address := 0, URL := "" }
      ∧ K.Accounts (CreateAccount K ga passphrase).1 = K.Accounts ga.keystore := by
  have hlen : ¬ (K.Accounts ga.keystore).length < 1 := by omega
  have hres : CreateAccount K ga passphrase =
      (ga.keystore, (({} : Account), some (GoError.errorsNew "gladius account already exists"))) := by
    simp [CreateAccount, Keystore, hlen]
  refine ⟨hres, ?_, ?_, ?_⟩ <;> simp [hres]

theorem CreateAccount_existing_witness :
    1 ≤ (demoKeyStore.Accounts oneAccount.keystore).length ∧
    (CreateAccount demoKeyStore oneAccount "pw" =
        (oneAccount.keystore,
          (({} : Account), some (GoError.errorsNew "gladius account already exists")))
      ∧ (CreateAccount demoKeyStore oneAccount "pw").2.2 ≠ none
      ∧ (CreateAccount demoKeyStore oneAccount "pw").2.1 = { Address := 0, URL := "" }
      ∧ demoKeyStore.Accounts (CreateAccount demoKeyStore oneAccount "pw").1 =
          demoKeyStore.Accounts oneAccount.keystore) :=
  ⟨by decide, CreateAccount_existing demoKeyStore oneAccount "pw" (by decide)⟩

/-- C2, as far as it holds: HasAccount is true exactly when the keystore lists
at least one account. -/
theorem HasAccount_iff_nonempty (K : KeyStore σ) (ga : GladiusAccountManager σ) :
    HasAccount K ga = true ↔ 1 ≤ (K.Accounts ga.keystore).length := by
  simp [HasAccount, Nat.lt_iff_add_one_le]

/-- C2 fails as stated: with two accounts in the keystore HasAccount is true,
so it is not equivalent to "exactly one account is present". -/
theorem HasAccount_two_accounts :
    (demoKeyStore.Accounts twoAccounts.keystore).length = 2 ∧
    HasAccount demoKeyStore twoAccounts = true ∧
    ¬ (HasAccount demoKeyStore twoAccounts = true ↔
        (demoKeyStore.Accounts twoAccounts.keystore).length = 1) := by
  decide

/-- C3, as far as it holds: when the keystore holds an account and the backend
rejects the passphrase for the first account with the error `e`, UnlockAccount
returns false together with that same non-nil error. -/
theorem UnlockAccount_rejected (K : KeyStore σ) (ga : GladiusAccountManager σ)
    (passphrase : String) (a : Account) (rest : List Account) (e : GoError)
    (hacc : K.Accounts ga.keystore = a :: rest)
    (hrej : (K.Unlock ga.keystore a passphrase).2 = some e) :
    (UnlockAccount K ga passphrase).2 = (false, some e) := by
  unfold UnlockAccount
  rw [GetAccount_of_cons K ga a rest hacc]
  simp only [Keystore]
  rcases hu : K.Unlock ga.keystore a passphrase with ⟨st, r⟩
  rw [hu] at hrej
  simp only at hrej
  subst hrej
  rfl

theorem UnlockAccount_rejected_witness :
    demoKeyStore.Accounts oneAccount.keystore = acctA :: [] ∧
    (demoKeyStore.Unlock oneAccount.keystore acctA "wrong").2 = some ErrDecrypt ∧
    (UnlockAccount demoKeyStore oneAccount "wrong").2 = (false, some ErrDecrypt) :=
  ⟨by decide, by decide,
    UnlockAccount_rejected demoKeyStore oneAccount "wrong" acctA [] ErrDecrypt
      (by decide) (by decide)⟩

/-- C3 fails as stated: the example keystore rejects the passphrase "wrong" for
its only account, and UnlockAccount answers false together with a non-nil
error, not with a nil error. -/
theorem UnlockAccount_wrong_passphrase_not_nil :
    (demoKeyStore.Unlock oneAccount.keystore acctA "wrong").2 ≠ none ∧
    (UnlockAccount demoKeyStore oneAccount "wrong").2 ≠ (false, none) ∧
    (UnlockAccount demoKeyStore oneAccount "wrong").2.2 = some ErrDecrypt := by
  decide

/-- C10. The boolean UnlockAccount returns is true exactly when the returned
error is nil; and on a keystore without accounts it returns false with the
error "account retrieval error, no existing accounts found" and hands back the
keystore state untouched, and the whole outcome is the same whatever the
backend's unlock operation is: the backend's unlock is not invoked. -/
theorem UnlockAccount_bool_iff_nil (K : KeyStore σ) (ga : GladiusAccountManager σ)
    (passphrase : String) :
    ((UnlockAccount K ga passphrase).2.1 = true ↔ (UnlockAccount K ga passphrase).2.2 = none) ∧
    (K.Accounts ga.keystore = [] →
      UnlockAccount K ga passphrase =
          (ga.keystore, (false, some (GoError.errorsNew
            "account retrieval error, no existing accounts found"))) ∧
        ∀ unlock : σ → Account → String → σ × Option GoError,
          UnlockAccount { K with Unlock := unlock } ga passphrase =
            UnlockAccount K ga passphrase) := by
  constructor
  · unfold UnlockAccount
    cases GetAccount K ga with
    | error err => simp
    | ok account =>
      simp only
      rcases K.Unlock (Keystore ga) account passphrase with ⟨st, _ | err⟩ <;> simp
  · intro h
    have hK : UnlockAccount K ga passphrase =
        (ga.keystore, (false, some (GoError.errorsNew
          "account retrieval error, no existing accounts found"))) := by
      unfold UnlockAccount
      rw [GetAccount_of_nil K ga h]
    refine ⟨hK, fun unlock => ?_⟩
    rw [hK]
    unfold UnlockAccount
    rw [GetAccount_of_nil { K with Unlock := unlock } ga h]

theorem UnlockAccount_bool_iff_nil_witness :
    demoKeyStore.Accounts noAccount.keystore = [] ∧
    ((UnlockAccount demoKeyStore noAccount "pw").2.1 = true ↔
      (UnlockAccount demoKeyStore noAccount "pw").2.2 = none) ∧
    UnlockAccount demoKeyStore noAccount "pw" =
      (noAccount.keystore, (false, some (GoError.errorsNew
        "account retrieval error, no existing accounts found"))) ∧
    (UnlockAccount demoKeyStore noAccount "pw").1.unlockCalls = 0 ∧
    ∀ unlock : DemoStore → Account → String → DemoStore × Option GoError,
      UnlockAccount { demoKeyStore with Unlock := unlock } noAccount "pw" =
        UnlockAccount demoKeyStore noAccount "pw" :=
  ⟨by decide, (UnlockAccount_bool_iff_nil demoKeyStore noAccount "pw").1,
    ((UnlockAccount_bool_iff_nil demoKeyStore noAccount "pw").2 (by decide)).1,
    by decide,
    ((UnlockAccount_bool_iff_nil demoKeyStore noAccount "pw").2 (by decide)).2⟩

/-! ## Theorems: the parser -/

theorem two_pow_64 : (2 : Nat) ^ 64 = 18446744073709551616 := by norm_num

theorem maxUint64_eq : maxUint64 = 18446744073709551615 := by
  norm_num [maxUint64]

theorem digitValue_digit (c : Nat) (h : 48 ≤ c ∧ c ≤ 57) : digitValue c = some (c - 48) := by
  simp [digitValue, h]

theorem digitValue_other (c : Nat) (h : ¬ (48 ≤ c ∧ c ≤ 57)) :
    digitValue c = none ∨ ∃ d, digitValue c = some d ∧ 10 ≤ d := by
  unfold digitValue
  rw [if_neg h]
  by_cases hl : 97 ≤ lower c ∧ lower c ≤ 122
  · right
    exact ⟨lower c - 97 + 10, by rw [if_pos hl], by omega⟩
  · left
    rw [if_neg hl]

theorem le_decimalFrom (cs : List Char) (n : Nat) : n ≤ decimalFrom n cs := by
  induction cs generalizing n with
  | nil => simp [decimalFrom]
  | cons c cs ih =>
    have h := ih (10 * n + (c.toNat - 48))
    simp only [decimalFrom, List.foldl_cons] at h ⊢
    omega

theorem decimalFrom_cons (c : Char) (cs : List Char) (n : Nat) :
    decimalFrom n (c :: cs) = decimalFrom (10 * n + (c.toNat - 48)) cs := by
  simp [decimalFrom]

theorem allDigits_cons (c : Char) (cs : List Char) :
    AllDigits (c :: cs) ↔ (48 ≤ c.toNat ∧ c.toNat ≤ 57) ∧ AllDigits cs := by
  simp [AllDigits]

/-- The loop of ParseUint succeeds exactly on digit strings whose value, read
from the accumulator, fits in 64 bits, and then returns that value. -/
theorem parseUintLoop_spec (s0 : String) (cs : List Char) (n : Nat) (hn : n < 2 ^ 64) :
    (AllDigits cs ∧ decimalFrom n cs < 2 ^ 64 →
      parseUintLoop s0 cs n = (decimalFrom n cs, none)) ∧
    (¬ (AllDigits cs ∧ decimalFrom n cs < 2 ^ 64) →
      ∃ v k, parseUintLoop s0 cs n = (v, some (GoError.numError "ParseUint" s0 k))) := by
  induction cs generalizing n with
  | nil =>
    constructor
    · intro _
      simp [parseUintLoop, decimalFrom]
    · intro h
      exact absurd ⟨by simp [AllDigits], by simpa [decimalFrom] using hn⟩ h
  | cons c cs ih =>
    rw [two_pow_64] at hn
    by_cases hc : 48 ≤ c.toNat ∧ c.toNat ≤ 57
    · have hd : digitValue c.toNat = some (c.toNat - 48) := digitValue_digit _ hc
      have hge := le_decimalFrom cs (10 * n + (c.toNat - 48))
      by_cases hcut : n ≥ maxUint64 / 10 + 1
      · -- the product overflows
        have hcut2 := hcut
        rw [maxUint64_eq] at hcut2
        have hbig : ¬ decimalFrom n (c :: cs) < 2 ^ 64 := by
          rw [decimalFrom_cons, two_pow_64]; omega
        constructor
        · intro h; exact absurd h.2 hbig
        · intro _
          refine ⟨maxUint64, NumErrKind.ErrRange, ?_⟩
          have hlt : ¬ (10 ≤ c.toNat - 48) := by omega
          simp only [parseUintLoop, hd, ge_iff_le, hlt, if_false]
          rw [if_pos hcut]
      · have hcut2 := hcut
        rw [maxUint64_eq] at hcut2
        by_cases hsum : 10 * n + (c.toNat - 48) < 18446744073709551616
        · -- no overflow: the loop continues
          have hstep : parseUintLoop s0 (c :: cs) n =
              parseUintLoop s0 cs (10 * n + (c.toNat - 48)) := by
            have hlt : ¬ (10 ≤ c.toNat - 48) := by omega
            have h10 : n * 10 % 18446744073709551616 = 10 * n := by omega
            have h1 : (10 * n + (c.toNat - 48)) % 18446744073709551616 =
                10 * n + (c.toNat - 48) := by omega
            have hno : ¬ (10 * n + (c.toNat - 48) < 10 * n ∨
                10 * n + (c.toNat - 48) > 18446744073709551615) := by omega
            simp only [parseUintLoop, hd, ge_iff_le, hlt, if_false]
            rw [if_neg hcut]
            simp only [two_pow_64, maxUint64_eq, h10, h1]
            rw [if_neg hno]
          have ih2 := ih (10 * n + (c.toNat - 48)) (by rw [two_pow_64]; exact hsum)
          rw [hstep, decimalFrom_cons, allDigits_cons]
          constructor
          · intro h; exact ih2.1 ⟨h.1.2, h.2⟩
          · intro h; exact ih2.2 (fun h2 => h ⟨⟨hc, h2.1⟩, h2.2⟩)
        · -- the sum overflows
          have hbig : ¬ decimalFrom n (c :: cs) < 2 ^ 64 := by
            rw [decimalFrom_cons, two_pow_64]; omega
          constructor
          · intro h; exact absurd h.2 hbig
          · intro _
            refine ⟨maxUint64, NumErrKind.ErrRange, ?_⟩
            have hlt : ¬ (10 ≤ c.toNat - 48) := by omega
            have h10 : n * 10 % 18446744073709551616 = 10 * n := by omega
            have hwrap : (10 * n + (c.toNat - 48)) % 18446744073709551616 < 10 * n ∨
                (10 * n + (c.toNat - 48)) % 18446744073709551616 > 18446744073709551615 := by
              omega
            simp only [parseUintLoop, hd, ge_iff_le, hlt, if_false]
            rw [if_neg hcut]
            simp only [two_pow_64, maxUint64_eq, h10]
            rw [if_pos hwrap]
    · -- not a decimal digit
      have hnot : ¬ (AllDigits (c :: cs) ∧ decimalFrom n (c :: cs) < 2 ^ 64) := by
        rw [allDigits_cons]; exact fun h => hc h.1.1
      constructor
      · intro h; exact absurd h hnot
      · intro _
        refine ⟨0, NumErrKind.ErrSyntax, ?_⟩
        rcases digitValue_other c.toNat hc with h | ⟨d, h, hd⟩
        · simp only [parseUintLoop, h]
        · simp only [parseUintLoop, h, ge_iff_le, hd, if_true]

theorem toList_eq_nil_iff (s : String) : s.toList = [] ↔ s = "" := by
  cases s with
  | mk data => simp [String.toList, String.ext_iff]

/-- The call ParseUint(s, 10, 64) succeeds exactly on the base-10 unsigned
integers below 2^64, with their value. -/
theorem ParseUint_spec (s : String) :
    (IsDecimalUint64 s → ParseUint s = (decimalValue s, none)) ∧
    (¬ IsDecimalUint64 s → ∃ v k, ParseUint s = (v, some (GoError.numError "ParseUint" s k))) := by
  by_cases hs : s = ""
  · constructor
    · intro h; exact absurd hs h.1
    · intro _
      exact ⟨0, NumErrKind.ErrSyntax, by simp [ParseUint, hs]⟩
  · have hloop := parseUintLoop_spec s s.toList 0 (by norm_num)
    have hP : ParseUint s = parseUintLoop s s.toList 0 := by simp [ParseUint, hs]
    rw [hP]
    constructor
    · intro h; exact hloop.1 ⟨h.2.1, h.2.2⟩
    · intro h; exact hloop.2 (fun h2 => h ⟨hs, h2.1, h2.2⟩)

theorem digitChar_toNat (d : Nat) (h : d < 10) : (digitChar d).toNat = d + 48 := by
  interval_cases d <;> rfl

theorem decimalFrom_append (n : Nat) (xs ys : List Char) :
    decimalFrom n (xs ++ ys) = decimalFrom (decimalFrom n xs) ys := by
  simp [decimalFrom, List.foldl_append]

theorem decimalFrom_digits (ds : List Nat) (h : ∀ d ∈ ds, d < 10) :
    decimalFrom 0 (ds.reverse.map digitChar) = Nat.ofDigits 10 ds := by
  induction ds with
  | nil => simp [decimalFrom]
  | cons d ds ih =>
    have hd : d < 10 := h d (List.mem_cons_self d ds)
    have ih2 := ih (fun x hx => h x (List.mem_cons_of_mem d hx))
    rw [List.reverse_cons, List.map_append, decimalFrom_append, ih2, Nat.ofDigits_cons]
    simp only [decimalFrom, List.map_cons, List.map_nil, List.foldl_cons, List.foldl_nil,
      digitChar_toNat d hd]
    omega

theorem allDigits_digits (ds : List Nat) (h : ∀ d ∈ ds, d < 10) :
    AllDigits (ds.reverse.map digitChar) := by
  intro c hc
  simp only [List.mem_map, List.mem_reverse] at hc
  obtain ⟨d, hd, rfl⟩ := hc
  have hlt := h d hd
  rw [digitChar_toNat d hlt]
  omega

theorem decimalChars_spec (n : Nat) :
    decimalChars n ≠ [] ∧ AllDigits (decimalChars n) ∧ decimalFrom 0 (decimalChars n) = n := by
  unfold decimalChars
  by_cases hn : n = 0
  · subst hn
    refine ⟨by simp, ?_, by decide⟩
    intro c hc
    simp at hc
    subst hc
    decide
  · rw [if_neg hn]
    have hlt : ∀ d ∈ Nat.digits 10 n, d < 10 := fun d hd => Nat.digits_lt_base (by norm_num) hd
    refine ⟨?_, allDigits_digits _ hlt, ?_⟩
    · simp [Nat.digits_ne_nil_iff_ne_zero, hn]
    · rw [decimalFrom_digits _ hlt, Nat.ofDigits_digits]

/-- Every unsigned 64-bit amount is the result of parsing its decimal rendering. -/
theorem ParseUint_decimalString (raw : Nat) (h : raw < 2 ^ 64) :
    ParseUint (decimalString raw) = (raw, none) := by
  obtain ⟨hne, hall, hval⟩ := decimalChars_spec raw
  have hlist : (decimalString raw).toList = decimalChars raw := rfl
  have hdec : IsDecimalUint64 (decimalString raw) := by
    refine ⟨fun h0 => hne ?_, ?_, ?_⟩
    · rw [← hlist]; exact (toList_eq_nil_iff _).mpr h0
    · rw [hlist]; exact hall
    · simp only [decimalValue, hlist, hval]; exact h
  have hp := (ParseUint_spec (decimalString raw)).1 hdec
  rw [hp]
  simp only [decimalValue, hlist, hval]

/-! ## Theorems: balances -/

/-! ### float64 rounding -/

theorem roundHalfEven_eq_of_near (x : ℚ) (m : ℤ) (h : |x - m| < 1 / 2) :
    roundHalfEven x = m := by
  rw [abs_lt] at h
  unfold roundHalfEven
  by_cases hm : (m : ℚ) ≤ x
  · have hf : ⌊x⌋ = m := by
      rw [Int.floor_eq_iff]; constructor <;> linarith [h.1, h.2]
    rw [hf, if_pos (by linarith [h.2])]
  · have hf : ⌊x⌋ = m - 1 := by
      rw [Int.floor_eq_iff]; push_cast; constructor <;> linarith [h.1, h.2]
    rw [hf]
    push_cast
    rw [if_neg (by linarith [h.1]), if_pos (by linarith [h.1])]
    ring

theorem binary64_eq_of_exponent (q : ℚ) (e : ℤ) (hq : 0 < q) (he : -1074 ≤ e)
    (hlo : (2 : ℚ) ^ (e + 52) ≤ q) (hhi : q < (2 : ℚ) ^ (e + 53)) :
    binary64 q = (roundHalfEven (q / 2 ^ e) : ℚ) * 2 ^ e := by
  have hlog : Int.log 2 |q| = e + 52 := by
    rw [abs_of_pos hq]
    apply le_antisymm
    · have := (Int.lt_zpow_iff_log_lt (R := ℚ) (b := 2) (by norm_num) hq (x := e + 53)).1
        (by exact_mod_cast hhi)
      omega
    · exact (Int.zpow_le_iff_le_log (R := ℚ) (b := 2) (by norm_num) hq).1 (by exact_mod_cast hlo)
  unfold binary64
  rw [if_neg (ne_of_gt hq)]
  simp only [hlog]
  have : max (e + 52 - 52) (-1074) = e := by
    rw [max_eq_left] <;> omega
  rw [this]

theorem binary64_eq (q : ℚ) (e m : ℤ) (hq : 0 < q) (he : -1074 ≤ e)
    (hlo : (2 : ℚ) ^ (e + 52) ≤ q) (hhi : q < (2 : ℚ) ^ (e + 53))
    (hm : |q / 2 ^ e - m| < 1 / 2) :
    binary64 q = (m : ℚ) * 2 ^ e := by
  rw [binary64_eq_of_exponent q e hq he hlo hhi, roundHalfEven_eq_of_near _ m hm]


theorem roundHalfEven_abs_sub_le (x : ℚ) : |(roundHalfEven x : ℚ) - x| ≤ 1 / 2 := by
  have h1 := Int.floor_le x
  have h2 := Int.lt_floor_add_one x
  unfold roundHalfEven
  rw [abs_le]
  split_ifs with ha hb hc
  · constructor <;> linarith
  · push_cast; constructor <;> linarith
  · push_cast at ha hb ⊢; constructor <;> linarith
  · push_cast at ha hb ⊢; constructor <;> linarith

theorem binary64_zero : binary64 0 = 0 := by simp [binary64]

/-- In the normal range the rounding error is at most `2 ^ (-53)` relative. -/
theorem binary64_rel_err (q : ℚ) (hq : 0 < q) (hn : (2 : ℚ) ^ (-1022 : ℤ) ≤ q) :
    |binary64 q - q| ≤ q / 2 ^ 53 := by
  have hL : (-1022 : ℤ) ≤ Int.log 2 q :=
    (Int.zpow_le_iff_le_log (R := ℚ) (b := 2) (by norm_num) hq).1 (by exact_mod_cast hn)
  have hle : (2 : ℚ) ^ (Int.log 2 q) ≤ q := by
    have := Int.zpow_log_le_self (R := ℚ) (b := 2) (by norm_num) hq
    exact_mod_cast this
  unfold binary64
  rw [if_neg (ne_of_gt hq), abs_of_pos hq]
  have he : max (Int.log 2 q - 52) (-1074) = Int.log 2 q - 52 := by
    rw [max_eq_left]; omega
  simp only [he]
  generalize hedef : Int.log 2 q - 52 = e
  have hpos : (0 : ℚ) < 2 ^ e := by positivity
  have hr := roundHalfEven_abs_sub_le (q / 2 ^ e)
  have heq : (roundHalfEven (q / 2 ^ e) : ℚ) * 2 ^ e - q =
      ((roundHalfEven (q / 2 ^ e) : ℚ) - q / 2 ^ e) * 2 ^ e := by
    field_simp
  rw [heq, abs_mul, abs_of_pos hpos]
  have h53 : (2 : ℚ) ^ (Int.log 2 q) = 2 ^ e * 2 ^ 52 := by
    have : Int.log 2 q = e + 52 := by omega
    rw [this, zpow_add₀ (by norm_num)]
    norm_num
  have : (2 : ℚ) ^ e * (1 / 2) ≤ q / 2 ^ 53 := by
    rw [le_div_iff₀ (by positivity)]
    calc (2 : ℚ) ^ e * (1 / 2) * 2 ^ 53 = 2 ^ e * 2 ^ 52 := by ring
      _ = 2 ^ (Int.log 2 q) := h53.symm
      _ ≤ q := hle
  calc |(roundHalfEven (q / 2 ^ e) : ℚ) - q / 2 ^ e| * 2 ^ e ≤ 1 / 2 * 2 ^ e := by
        exact mul_le_mul_of_nonneg_right hr hpos.le
    _ = 2 ^ e * (1 / 2) := by ring
    _ ≤ q / 2 ^ 53 := this

/-- One rounding step of an error analysis: an approximation `q` of `t` with
relative error `ε` is rounded to one with relative error `ε + (1 + ε) / 2 ^ 53`. -/
theorem binary64_step (q t ε : ℚ) (ht : (1 : ℚ) / 10 ^ 30 ≤ t) (hε1 : ε ≤ 1 / 2)
    (hqt : |q - t| ≤ t * ε) :
    |binary64 q - t| ≤ t * (ε + (1 + ε) / 2 ^ 53) ∧ 0 < binary64 q := by
  have htpos : 0 < t := lt_of_lt_of_le (by norm_num) ht
  rw [abs_le] at hqt
  have hqlo : t / 2 ≤ q := by nlinarith [hqt.1]
  have hqhi : q ≤ t * (1 + ε) := by linarith [hqt.2]
  have hq : 0 < q := by linarith
  have hn : (2 : ℚ) ^ (-1022 : ℤ) ≤ q := by
    have h0 : (2 : ℚ) ^ (-1022 : ℤ) ≤ 1 / 10 ^ 30 / 2 := by norm_num
    have h1 : (1 : ℚ) / 10 ^ 30 / 2 ≤ t / 2 := by linarith
    exact le_trans h0 (le_trans h1 hqlo)
  have hr := binary64_rel_err q hq hn
  rw [abs_le] at hr
  have hu : q / 2 ^ 53 ≤ t * ((1 + ε) / 2 ^ 53) := by
    rw [div_le_iff₀ (by positivity)]
    have : t * ((1 + ε) / 2 ^ 53) * 2 ^ 53 = t * (1 + ε) := by field_simp
    rw [this]; exact hqhi
  have hq53 : q / 2 ^ 53 ≤ q / 2 := by
    apply div_le_div_of_nonneg_left hq.le (by norm_num) (by norm_num)
  constructor
  · rw [abs_le]; constructor <;> nlinarith [hr.1, hr.2, hqt.1, hqt.2]
  · linarith [hr.1]


theorem roundHalfEven_eq_of_tie (x : ℚ) (f m : ℤ) (hx : x = f + 1 / 2)
    (hm : (m = f ∧ f % 2 = 0) ∨ (m = f + 1 ∧ f % 2 = 1)) :
    roundHalfEven x = m := by
  have hf : ⌊x⌋ = f := by
    rw [Int.floor_eq_iff]; constructor <;> linarith
  unfold roundHalfEven
  rw [hf, hx]
  have h1 : ¬ ((f : ℚ) + 1 / 2 - f < 1 / 2) := by norm_num
  have h2 : ¬ ((1 : ℚ) / 2 < (f : ℚ) + 1 / 2 - f) := by norm_num
  rw [if_neg h1, if_neg h2]
  rcases hm with ⟨h, he⟩ | ⟨h, ho⟩
  · rw [if_pos he, h]
  · rw [if_neg (by omega), h]

theorem binary64_eq_tie (q : ℚ) (e f m : ℤ) (hq : 0 < q) (he : -1074 ≤ e)
    (hlo : (2 : ℚ) ^ (e + 52) ≤ q) (hhi : q < (2 : ℚ) ^ (e + 53))
    (hx : q / 2 ^ e = f + 1 / 2)
    (hm : (m = f ∧ f % 2 = 0) ∨ (m = f + 1 ∧ f % 2 = 1)) :
    binary64 q = (m : ℚ) * 2 ^ e := by
  rw [binary64_eq_of_exponent q e hq he hlo hhi, roundHalfEven_eq_of_tie _ f m hx hm]


theorem mathRound_of_nonneg (x : ℚ) (hx : 0 ≤ x) : mathRound x = ((⌊x + 1 / 2⌋ : ℤ) : ℚ) := by
  unfold mathRound
  rw [if_neg (not_lt.mpr hx)]

/-- Error of the scaled amount: the amount is converted, divided by `D` and
multiplied by `M`, each result rounded to float64. -/
theorem scaled_err (raw : ℕ) (D M : ℚ) (hraw : 1 ≤ raw) (hD0 : 0 < D)
    (hD : D ≤ 10 ^ 19) (hM : 1 ≤ M) :
    |binary64 (binary64 (binary64 (raw : ℚ) / D) * M) - raw * M / D| ≤ raw * M / D / 2 ^ 51 ∧
      0 < binary64 (binary64 (binary64 (raw : ℚ) / D) * M) := by
  have hr1 : (1 : ℚ) ≤ raw := by exact_mod_cast hraw
  have hM0 : 0 < M := by linarith
  -- the conversion
  have s0 := binary64_step (raw : ℚ) raw 0 (by norm_num; linarith) (by norm_num) (by simp)
  -- the division
  have ht1 : (1 : ℚ) / 10 ^ 30 ≤ raw / D := by
    rw [le_div_iff₀ hD0]
    have : (1 : ℚ) / 10 ^ 30 * D ≤ 1 / 10 ^ 30 * 10 ^ 19 := by
      apply mul_le_mul_of_nonneg_left hD; norm_num
    have h2 : (1 : ℚ) / 10 ^ 30 * 10 ^ 19 ≤ 1 := by norm_num
    linarith
  have hq1 : |binary64 (raw : ℚ) / D - raw / D| ≤ raw / D * (0 + (1 + 0) / 2 ^ 53) := by
    rw [← sub_div, abs_div, abs_of_pos hD0, div_mul_eq_mul_div]
    exact div_le_div_of_nonneg_right s0.1 hD0.le
  have s1 := binary64_step (binary64 (raw : ℚ) / D) (raw / D) (0 + (1 + 0) / 2 ^ 53) ht1
    (by norm_num) hq1
  -- the multiplication
  have ht2 : (1 : ℚ) / 10 ^ 30 ≤ raw / D * M := by
    have h0 : (0 : ℚ) ≤ raw / D := by positivity
    nlinarith
  have hq2 : |binary64 (binary64 (raw : ℚ) / D) * M - raw / D * M| ≤
      raw / D * M * (0 + (1 + 0) / 2 ^ 53 + (1 + (0 + (1 + 0) / 2 ^ 53)) / 2 ^ 53) := by
    rw [← sub_mul, abs_mul, abs_of_pos hM0]
    calc |binary64 (binary64 (raw : ℚ) / D) - raw / D| * M
        ≤ raw / D * (0 + (1 + 0) / 2 ^ 53 + (1 + (0 + (1 + 0) / 2 ^ 53)) / 2 ^ 53) * M :=
          mul_le_mul_of_nonneg_right s1.1 hM0.le
      _ = _ := by ring
  have s2 := binary64_step (binary64 (binary64 (raw : ℚ) / D) * M) (raw / D * M) _ ht2
    (by norm_num) hq2
  refine ⟨?_, s2.2⟩
  have hy : (0 : ℚ) ≤ raw / D * M := by positivity
  have heq : (raw : ℚ) * M / D = raw / D * M := by ring
  rw [heq]
  refine le_trans s2.1 ?_
  rw [div_eq_mul_one_div (raw / D * M) (2 ^ 51)]
  apply mul_le_mul_of_nonneg_left _ hy
  norm_num

/-- The display value computed from the amount `raw` with divisor `D` and
multiplier `M`: there is an integer `k`, the scaled float64 amount rounded half
away from zero, such that the value is `k / 100` rounded to float64; `k` is
within `1/2` of `raw * M / D` up to a relative error of `2 ^ (-51)`, and the
value within `1/200` of `raw * M / D / 100` up to a relative error of `2 ^ (-50)`. -/
theorem display_err (raw : ℕ) (D M : ℚ) (hD0 : 0 < D) (hD : D ≤ 10 ^ 19) (hM : 1 ≤ M) :
    ∃ k : ℤ, 0 ≤ k ∧
      0 ≤ binary64 (binary64 (binary64 (raw : ℚ) / D) * M) ∧
      (k : ℚ) - 1 / 2 ≤ binary64 (binary64 (binary64 (raw : ℚ) / D) * M) ∧
      binary64 (binary64 (binary64 (raw : ℚ) / D) * M) < k + 1 / 2 ∧
      binary64 (mathRound (binary64 (binary64 (binary64 (raw : ℚ) / D) * M)) / 100) =
        binary64 ((k : ℚ) / 100) ∧
      |(k : ℚ) - raw * M / D| ≤ 1 / 2 + raw * M / D / 2 ^ 51 ∧
      |binary64 ((k : ℚ) / 100) - raw * M / D / 100| ≤
        1 / 200 + (raw * M / D / 100 + 1) / 2 ^ 50 := by
  have hM0 : 0 < M := by linarith
  have hy : (0 : ℚ) ≤ raw * M / D := by positivity
  generalize hx : binary64 (binary64 (binary64 (raw : ℚ) / D) * M) = x
  have hxy : |x - raw * M / D| ≤ raw * M / D / 2 ^ 51 ∧ 0 ≤ x := by
    rcases Nat.eq_zero_or_pos raw with h0 | hpos
    · subst h0
      have : x = 0 := by rw [← hx]; simp [binary64_zero]
      subst this
      simp
    · have h := scaled_err raw D M hpos hD0 hD hM
      rw [hx] at h
      exact ⟨h.1, h.2.le⟩
  obtain ⟨hxe, hx0⟩ := hxy
  rw [abs_le] at hxe
  have hfl1 := Int.floor_le (x + 1 / 2)
  have hfl2 := Int.lt_floor_add_one (x + 1 / 2)
  have hk0 : 0 ≤ ⌊x + 1 / 2⌋ := Int.floor_nonneg.mpr (by linarith)
  have hkabs : |((⌊x + 1 / 2⌋ : ℤ) : ℚ) - raw * M / D| ≤ 1 / 2 + raw * M / D / 2 ^ 51 := by
    rw [abs_le]; constructor <;> linarith [hxe.1, hxe.2]
  refine ⟨⌊x + 1 / 2⌋, hk0, hx0, by linarith, by linarith, ?_, hkabs, ?_⟩
  · rw [mathRound_of_nonneg x hx0]
  · generalize ⌊x + 1 / 2⌋ = k at hk0 hkabs
    rw [abs_le] at hkabs
    rcases eq_or_lt_of_le hk0 with hk | hk
    · rw [← hk]
      have hz : binary64 (((0 : ℤ) : ℚ) / 100) = 0 := by simp [binary64_zero]
      rw [hz]
      rw [← hk] at hkabs
      have h50 : (0 : ℚ) ≤ (raw * M / D / 100 + 1) / 2 ^ 50 := by positivity
      rw [abs_le]
      constructor <;> push_cast at hkabs <;> linarith [hkabs.1, hkabs.2]
    · have hk1 : (1 : ℚ) ≤ k := by exact_mod_cast hk
      have hq : (0 : ℚ) < (k : ℚ) / 100 := by positivity
      have hn : (2 : ℚ) ^ (-1022 : ℤ) ≤ (k : ℚ) / 100 := by
        have h0 : (2 : ℚ) ^ (-1022 : ℤ) ≤ 1 / 100 := by norm_num
        have h1 : (1 : ℚ) / 100 ≤ (k : ℚ) / 100 := by linarith
        exact le_trans h0 h1
      have hr := binary64_rel_err ((k : ℚ) / 100) hq hn
      rw [abs_le] at hr
      have hku : (k : ℚ) / 100 / 2 ^ 53 ≤
          (raw * M / D / 100 * (1 + 1 / 2 ^ 51) + 1 / 200) / 2 ^ 53 := by
        apply div_le_div_of_nonneg_right _ (by positivity)
        linarith [hkabs.2]
      rw [abs_le]
      have e1 : (raw * M / D / 100 * (1 + 1 / 2 ^ 51) + 1 / 200) / 2 ^ 53 +
          raw * M / D / 2 ^ 51 / 100 ≤ (raw * M / D / 100 + 1) / 2 ^ 50 := by
        have hy100 : (0 : ℚ) ≤ raw * M / D / 100 := by positivity
        generalize raw * M / D = y at hy hy100 ⊢
        norm_num
        linarith
      constructor <;> linarith [hr.1, hr.2, hkabs.1, hkabs.2]

theorem roundHalfEven_nearest (t : ℚ) (n : ℤ) :
    |(roundHalfEven t : ℚ) - t| ≤ |(n : ℚ) - t| := by
  have h := roundHalfEven_abs_sub_le t
  by_cases hn : n = roundHalfEven t
  · rw [hn]
  · have h1 : (1 : ℚ) ≤ |(n : ℚ) - roundHalfEven t| := by
      have : (1 : ℤ) ≤ |n - roundHalfEven t| := Int.one_le_abs (sub_ne_zero.mpr hn)
      exact_mod_cast this
    have h2 : |(n : ℚ) - roundHalfEven t| ≤ |(n : ℚ) - t| + |(roundHalfEven t : ℚ) - t| := by
      have := abs_sub_le (n : ℚ) t (roundHalfEven t)
      rwa [abs_sub_comm t (roundHalfEven t : ℚ)] at this
    linarith

theorem roundHalfEven_tie (t : ℚ) (n : ℤ) (hne : n ≠ roundHalfEven t)
    (heq : |(n : ℚ) - t| = |(roundHalfEven t : ℚ) - t|) :
    roundHalfEven t % 2 = 0 ∧ |n - roundHalfEven t| = 1 := by
  have hfl1 := Int.floor_le t
  have hfl2 := Int.lt_floor_add_one t
  have h1 : (1 : ℚ) ≤ |(n : ℚ) - roundHalfEven t| := by
    have : (1 : ℤ) ≤ |n - roundHalfEven t| := Int.one_le_abs (sub_ne_zero.mpr hne)
    exact_mod_cast this
  have h2 : |(n : ℚ) - roundHalfEven t| ≤ |(n : ℚ) - t| + |(roundHalfEven t : ℚ) - t| := by
    have := abs_sub_le (n : ℚ) t (roundHalfEven t)
    rwa [abs_sub_comm t (roundHalfEven t : ℚ)] at this
  have h3 := roundHalfEven_abs_sub_le t
  have hhalf : |(roundHalfEven t : ℚ) - t| = 1 / 2 := by linarith
  have hdist : |(n : ℚ) - roundHalfEven t| = 1 := by
    apply le_antisymm _ h1
    linarith
  have hdistZ : |n - roundHalfEven t| = 1 := by exact_mod_cast hdist
  refine ⟨?_, hdistZ⟩
  -- the distance one half forces the tie branch
  unfold roundHalfEven at hhalf ⊢
  split_ifs at hhalf ⊢ with ha hb hc
  · exfalso
    rw [abs_of_nonpos (by linarith)] at hhalf
    linarith
  · exfalso
    push_cast at hhalf
    rw [abs_of_nonneg (by linarith)] at hhalf
    linarith
  · exact hc
  · omega

theorem roundHalfEven_nonneg (t : ℚ) (ht : 0 ≤ t) : 0 ≤ roundHalfEven t := by
  have h := roundHalfEven_abs_sub_le t
  rw [abs_le] at h
  have : (-1 : ℚ) < roundHalfEven t := by linarith [h.1]
  have h2 : (-1 : ℤ) < roundHalfEven t := by exact_mod_cast this
  omega

theorem roundHalfEven_le_two_mul (t : ℚ) (ht : 0 ≤ t) : (roundHalfEven t : ℚ) ≤ 2 * t := by
  by_cases h : t < 1 / 2
  · have hf : ⌊t⌋ = 0 := by
      rw [Int.floor_eq_iff]; constructor <;> push_cast <;> linarith
    have : roundHalfEven t = 0 := by
      unfold roundHalfEven
      rw [hf, if_pos (by push_cast; linarith)]
    rw [this]; push_cast; linarith
  · have h3 := roundHalfEven_abs_sub_le t
    rw [abs_le] at h3
    linarith [h3.2]


theorem binary64_of_ne_zero (q : ℚ) (hq : q ≠ 0) :
    binary64 q = (roundHalfEven (q / 2 ^ ulpExponent q) : ℚ) * 2 ^ ulpExponent q := by
  unfold binary64 ulpExponent
  rw [if_neg hq]

theorem ulpExponent_ge (q : ℚ) : -1074 ≤ ulpExponent q := le_max_right _ _

theorem lt_two_zpow_ulpExponent (q : ℚ) (hq : 0 < q) : q < 2 ^ (ulpExponent q + 53) := by
  have h1 : q < (2 : ℚ) ^ (Int.log 2 q + 1) := by
    have := Int.lt_zpow_succ_log_self (R := ℚ) (b := 2) (by norm_num) q
    exact_mod_cast this
  have h2 : Int.log 2 q + 1 ≤ ulpExponent q + 53 := by
    have : Int.log 2 q - 52 ≤ ulpExponent q := by
      unfold ulpExponent; rw [abs_of_pos hq]; exact le_max_left _ _
    omega
  exact lt_of_lt_of_le h1 (zpow_le_zpow_right₀ (by norm_num) h2)

theorem two_zpow_ulpExponent_le (q : ℚ) (hq : 0 < q) (he : -1074 < ulpExponent q) :
    (2 : ℚ) ^ (ulpExponent q + 52) ≤ q := by
  have h0 : ulpExponent q = Int.log 2 q - 52 := by
    unfold ulpExponent at he ⊢
    rw [abs_of_pos hq] at he ⊢
    rcases max_cases (Int.log 2 q - 52) (-1074) with ⟨h, _⟩ | ⟨h, _⟩
    · exact h
    · rw [h] at he; omega
  have h1 : (2 : ℚ) ^ (Int.log 2 q) ≤ q := by
    have := Int.zpow_log_le_self (R := ℚ) (b := 2) (by norm_num) hq
    exact_mod_cast this
  have : ulpExponent q + 52 = Int.log 2 q := by omega
  rw [this]; exact h1

theorem ulpExponent_le (q : ℚ) (hq : 0 < q) (hlt : q < 2 ^ (1023 : ℤ)) :
    ulpExponent q ≤ 970 := by
  have h : Int.log 2 q < 1023 :=
    (Int.lt_zpow_iff_log_lt (R := ℚ) (b := 2) (by norm_num) hq).1 (by exact_mod_cast hlt)
  unfold ulpExponent
  rw [abs_of_pos hq]
  apply max_le <;> omega

theorem binary64_sub (q : ℚ) (hq : 0 < q) (n : ℤ) :
    |binary64 q - q| ≤ |(n : ℚ) * 2 ^ ulpExponent q - q| ∧
    |binary64 q - q| = |(roundHalfEven (q / 2 ^ ulpExponent q) : ℚ) - q / 2 ^ ulpExponent q| *
      2 ^ ulpExponent q ∧
    |(n : ℚ) * 2 ^ ulpExponent q - q| = |(n : ℚ) - q / 2 ^ ulpExponent q| * 2 ^ ulpExponent q := by
  rw [binary64_of_ne_zero q (ne_of_gt hq)]
  generalize ulpExponent q = e
  have hpos : (0 : ℚ) < 2 ^ e := by positivity
  have e1 : ∀ z : ℚ, |z * 2 ^ e - q| = |z - q / 2 ^ e| * 2 ^ e := by
    intro z
    have : z * 2 ^ e - q = (z - q / 2 ^ e) * 2 ^ e := by field_simp
    rw [this, abs_mul, abs_of_pos hpos]
  refine ⟨?_, e1 _, e1 _⟩
  rw [e1, e1]
  exact mul_le_mul_of_nonneg_right (roundHalfEven_nearest _ n) hpos.le

/-- A float64 is a multiple of the last place at `q`, or it lies farther from
`q` than `binary64 q` does. -/
theorem float64_on_grid_or_farther (q : ℚ) (hq : 0 < q) (y : ℚ) (hy : IsFloat64 y) :
    (∃ n : ℤ, y = (n : ℚ) * 2 ^ ulpExponent q) ∨ |binary64 q - q| < |y - q| := by
  obtain ⟨m, e, hm, he1, _, rfl⟩ := hy
  by_cases hle : ulpExponent q ≤ e
  · left
    obtain ⟨d, hd⟩ := Int.le.dest hle
    refine ⟨m * 2 ^ d, ?_⟩
    rw [← hd, zpow_add₀ (by norm_num), zpow_natCast]
    push_cast; ring
  · right
    push_neg at hle
    have hgt : -1074 < ulpExponent q := by omega
    have hB := two_zpow_ulpExponent_le q hq hgt
    have hnear := (binary64_sub q hq (2 ^ 52)).1
    have hBe : ((2 ^ 52 : ℤ) : ℚ) * 2 ^ ulpExponent q = 2 ^ (ulpExponent q + 52) := by
      rw [zpow_add₀ (by norm_num)]; push_cast; norm_num; ring
    have hBabs : |(2 : ℚ) ^ (ulpExponent q + 52) - q| = q - 2 ^ (ulpExponent q + 52) := by
      rw [abs_of_nonpos (by linarith)]; ring
    rw [hBe, hBabs] at hnear
    have hm' : |(m : ℚ)| < 2 ^ 53 := by exact_mod_cast hm
    have hpe : (0 : ℚ) < 2 ^ e := by positivity
    have hy1 : (m : ℚ) * 2 ^ e < 2 ^ 53 * 2 ^ e := by
      apply mul_lt_mul_of_pos_right _ hpe
      exact lt_of_le_of_lt (le_abs_self _) hm'
    have hy2 : (2 : ℚ) ^ 53 * 2 ^ e ≤ 2 ^ (ulpExponent q + 52) := by
      have : (2 : ℚ) ^ 53 * 2 ^ e = 2 ^ (e + 53) := by
        rw [zpow_add₀ (by norm_num)]; norm_num; ring
      rw [this]
      exact zpow_le_zpow_right₀ (by norm_num) (by omega)
    have hyabs : |(m : ℚ) * 2 ^ e - q| = q - (m : ℚ) * 2 ^ e := by
      rw [abs_of_neg (by linarith)]; ring
    rw [hyabs]
    linarith


theorem binary64_nonneg_le (q : ℚ) (hq : 0 ≤ q) : 0 ≤ binary64 q ∧ binary64 q ≤ 2 * q := by
  rcases eq_or_lt_of_le hq with h0 | hpos
  · rw [← h0, binary64_zero]; simp
  · rw [binary64_of_ne_zero q (ne_of_gt hpos)]
    generalize ulpExponent q = e
    have hpe : (0 : ℚ) < 2 ^ e := by positivity
    have ht : (0 : ℚ) ≤ q / 2 ^ e := by positivity
    have h1 : (0 : ℚ) ≤ roundHalfEven (q / 2 ^ e) := by
      exact_mod_cast roundHalfEven_nonneg _ ht
    have h2 := roundHalfEven_le_two_mul _ ht
    constructor
    · positivity
    · calc (roundHalfEven (q / 2 ^ e) : ℚ) * 2 ^ e ≤ 2 * (q / 2 ^ e) * 2 ^ e :=
          mul_le_mul_of_nonneg_right h2 hpe.le
        _ = 2 * q := by field_simp

theorem isFloat64_zero : IsFloat64 0 :=
  ⟨0, 0, by norm_num, by norm_num, by norm_num, by norm_num⟩

theorem binary64_isFloat64 (q : ℚ) (hq : 0 ≤ q) (hlt : q < 2 ^ (1023 : ℤ)) :
    IsFloat64 (binary64 q) := by
  rcases eq_or_lt_of_le hq with h0 | hpos
  · rw [← h0, binary64_zero]; exact isFloat64_zero
  · have hge := ulpExponent_ge q
    have hle := ulpExponent_le q hpos hlt
    have hhi := lt_two_zpow_ulpExponent q hpos
    rw [binary64_of_ne_zero q (ne_of_gt hpos)]
    generalize ulpExponent q = e at hge hle hhi
    have hpe : (0 : ℚ) < 2 ^ e := by positivity
    have ht0 : (0 : ℚ) ≤ q / 2 ^ e := by positivity
    have ht : q / 2 ^ e < 2 ^ 53 := by
      rw [div_lt_iff₀ hpe]
      have : (2 : ℚ) ^ (e + 53) = 2 ^ 53 * 2 ^ e := by
        rw [zpow_add₀ (by norm_num)]; norm_num; ring
      rw [← this]; exact hhi
    have hm0 := roundHalfEven_nonneg _ ht0
    have hr := roundHalfEven_abs_sub_le (q / 2 ^ e)
    rw [abs_le] at hr
    have hm1 : (roundHalfEven (q / 2 ^ e) : ℚ) < 2 ^ 53 + 1 := by linarith [hr.2]
    have hm2 : roundHalfEven (q / 2 ^ e) < 2 ^ 53 + 1 := by exact_mod_cast hm1
    generalize roundHalfEven (q / 2 ^ e) = m at hm0 hm2
    by_cases hm : m < 2 ^ 53
    · exact ⟨m, e, by rw [abs_of_nonneg hm0]; exact hm, hge, by omega, rfl⟩
    · have hmeq : m = 2 ^ 53 := by omega
      refine ⟨2 ^ 52, e + 1, by norm_num, by omega, by omega, ?_⟩
      rw [hmeq, zpow_add₀ (by norm_num)]
      push_cast; norm_num; ring

/-- The function `binary64` rounds as IEEE 754 prescribes: for an exact result
`q` that is not negative and below `2 ^ 1023`, the value `binary64 q` is a
float64 nearest to `q`, the one with the even significand at a tie. -/
theorem binary64_roundsTo (q : ℚ) (hq : 0 ≤ q) (hlt : q < 2 ^ (1023 : ℤ)) :
    RoundsTo q (binary64 q) := by
  refine ⟨binary64_isFloat64 q hq hlt, ?_, ?_⟩
  · intro y hy
    rcases eq_or_lt_of_le hq with h0 | hpos
    · rw [← h0, binary64_zero]; simp
    · rcases float64_on_grid_or_farther q hpos y hy with ⟨n, rfl⟩ | h
      · exact (binary64_sub q hpos n).1
      · exact h.le
  · intro y hy hne heq
    rcases eq_or_lt_of_le hq with h0 | hpos
    · exfalso
      rw [← h0, binary64_zero] at hne heq
      simp at heq
      exact hne heq
    · rcases float64_on_grid_or_farther q hpos y hy with ⟨n, rfl⟩ | h
      · obtain ⟨_, h2, h3⟩ := binary64_sub q hpos n
        have hxe := binary64_of_ne_zero q (ne_of_gt hpos)
        generalize ulpExponent q = e at *
        have hpe : (0 : ℚ) < 2 ^ e := by positivity
        rw [h2, h3] at heq
        have heq2 : |(n : ℚ) - q / 2 ^ e| = |(roundHalfEven (q / 2 ^ e) : ℚ) - q / 2 ^ e| :=
          mul_right_cancel₀ (ne_of_gt hpe) heq
        have hn : n ≠ roundHalfEven (q / 2 ^ e) := by
          intro h
          apply hne
          rw [hxe, h]
        obtain ⟨hev, hd⟩ := roundHalfEven_tie _ n hn heq2
        refine ⟨roundHalfEven (q / 2 ^ e) / 2, ?_⟩
        rw [hxe]
        have hsub : (n : ℚ) * 2 ^ e - (roundHalfEven (q / 2 ^ e) : ℚ) * 2 ^ e =
            ((n - roundHalfEven (q / 2 ^ e) : ℤ) : ℚ) * 2 ^ e := by push_cast; ring
        rw [hsub, abs_mul, abs_of_pos hpe]
        have hd' : |((n - roundHalfEven (q / 2 ^ e) : ℤ) : ℚ)| = 1 := by
          rw [← Int.cast_abs, hd]; norm_num
        rw [hd']
        have hdiv : (roundHalfEven (q / 2 ^ e) : ℚ) =
            2 * ((roundHalfEven (q / 2 ^ e) / 2 : ℤ) : ℚ) := by
          have : roundHalfEven (q / 2 ^ e) = 2 * (roundHalfEven (q / 2 ^ e) / 2) := by omega
          exact_mod_cast this
        rw [hdiv]
        ring
      · exact absurd heq (ne_of_gt h)

/-- The rounding relation determines its result. -/
theorem RoundsTo_unique (q x y : ℚ) (hx : RoundsTo q x) (hy : RoundsTo q y) : x = y := by
  by_contra hne
  have h1 := hx.2.1 y hy.1
  have h2 := hy.2.1 x hx.1
  have heq : |y - q| = |x - q| := le_antisymm h2 h1
  obtain ⟨n, hn⟩ := hx.2.2 y hy.1 (Ne.symm hne) heq
  obtain ⟨n', hn'⟩ := hy.2.2 x hx.1 hne heq.symm
  have hd : (0 : ℚ) < |y - x| := abs_pos.mpr (sub_ne_zero.mpr (Ne.symm hne))
  rw [abs_sub_comm x y] at hn'
  have h3 : y - x = 2 * ((n' - n : ℤ) : ℚ) * |y - x| := by
    push_cast
    linear_combination hn' - hn
  have h4 : |y - x| = 2 * |((n' - n : ℤ) : ℚ)| * |y - x| := by
    conv_lhs => rw [h3]
    rw [abs_mul, abs_mul, abs_abs]; norm_num
  have h5' : 1 * |y - x| = 2 * |((n' - n : ℤ) : ℚ)| * |y - x| := by
    rw [one_mul]; exact h4
  have h5 : (1 : ℚ) = 2 * |((n' - n : ℤ) : ℚ)| := mul_right_cancel₀ (ne_of_gt hd) h5'
  have h6 : (1 : ℤ) = 2 * |n' - n| := by exact_mod_cast h5
  omega

/-- The display value computed from the amount `raw` with divisor `D` and
multiplier `M`, stated with the rounding relation: the conversion, the
quotient and the product each round to a float64, the product `x` is not
negative and rounds half away from zero to the integer `k`, and the computed
value is what `k / 100` rounds to; with the error bounds of `display_err`. -/
theorem display_spec (raw : ℕ) (D M : ℚ) (hraw : raw < 2 ^ 64) (hD1 : 1 ≤ D)
    (hD : D ≤ 10 ^ 19) (hM1 : 1 ≤ M) (hM : M ≤ 1000) :
    ∃ x0 x1 x : ℚ, ∃ k : ℤ,
      RoundsTo (raw : ℚ) x0 ∧ RoundsTo (x0 / D) x1 ∧ RoundsTo (x1 * M) x ∧
      0 ≤ x ∧ (k : ℚ) - 1 / 2 ≤ x ∧ x < k + 1 / 2 ∧ 0 ≤ k ∧
      RoundsTo ((k : ℚ) / 100)
        (binary64 (mathRound (binary64 (binary64 (binary64 (raw : ℚ) / D) * M)) / 100)) ∧
      |(k : ℚ) - raw * M / D| ≤ 1 / 2 + raw * M / D / 2 ^ 51 ∧
      |binary64 (mathRound (binary64 (binary64 (binary64 (raw : ℚ) / D) * M)) / 100) -
          raw * M / D / 100| ≤ 1 / 200 + (raw * M / D / 100 + 1) / 2 ^ 50 := by
  have hD0 : 0 < D := by linarith
  have hM0 : 0 < M := by linarith
  have hr0 : (0 : ℚ) ≤ raw := Nat.cast_nonneg raw
  have hr1 : (raw : ℚ) < 2 ^ 64 := by exact_mod_cast hraw
  obtain ⟨k, hk0, hx0, hlo, hhi, hval, hk, hv⟩ := display_err raw D M hD0 hD hM1
  -- magnitudes
  have b0 := binary64_nonneg_le (raw : ℚ) hr0
  have hq1 : 0 ≤ binary64 (raw : ℚ) / D := div_nonneg b0.1 hD0.le
  have hq1le : binary64 (raw : ℚ) / D ≤ 2 ^ 65 := by
    rw [div_le_iff₀ hD0]
    have : (2 : ℚ) ^ 65 * 1 ≤ 2 ^ 65 * D := by
      apply mul_le_mul_of_nonneg_left hD1; positivity
    linarith [b0.2]
  have b1 := binary64_nonneg_le _ hq1
  have hq2 : 0 ≤ binary64 (binary64 (raw : ℚ) / D) * M := mul_nonneg b1.1 hM0.le
  have hq2le : binary64 (binary64 (raw : ℚ) / D) * M ≤ 2 ^ 66 * 1000 := by
    have h1 : binary64 (binary64 (raw : ℚ) / D) ≤ 2 ^ 66 := by linarith [b1.2]
    calc binary64 (binary64 (raw : ℚ) / D) * M ≤ 2 ^ 66 * M :=
        mul_le_mul_of_nonneg_right h1 hM0.le
      _ ≤ 2 ^ 66 * 1000 := by
        apply mul_le_mul_of_nonneg_left hM; positivity
  have b2 := binary64_nonneg_le _ hq2
  have hkq : (0 : ℚ) ≤ (k : ℚ) / 100 := by
    have : (0 : ℚ) ≤ k := by exact_mod_cast hk0
    positivity
  have hkle : (k : ℚ) / 100 ≤ 2 ^ 67 * 1000 + 1 := by
    have : (k : ℚ) ≤ 2 ^ 67 * 1000 + 1 := by linarith [b2.2]
    have hk' : (0 : ℚ) ≤ k := by exact_mod_cast hk0
    linarith
  have big0 : (2 : ℚ) ^ 64 < 2 ^ (1023 : ℤ) := by norm_num
  have big1 : (2 : ℚ) ^ 65 < 2 ^ (1023 : ℤ) := by norm_num
  have big2 : (2 : ℚ) ^ 66 * 1000 < 2 ^ (1023 : ℤ) := by norm_num
  have big3 : (2 : ℚ) ^ 67 * 1000 + 1 < 2 ^ (1023 : ℤ) := by norm_num
  refine ⟨binary64 (raw : ℚ), binary64 (binary64 (raw : ℚ) / D),
    binary64 (binary64 (binary64 (raw : ℚ) / D) * M), k,
    binary64_roundsTo _ hr0 (lt_trans hr1 big0),
    binary64_roundsTo _ hq1 (lt_of_le_of_lt hq1le big1),
    binary64_roundsTo _ hq2 (lt_of_le_of_lt hq2le big2),
    hx0, hlo, hhi, hk0, ?_, hk, ?_⟩
  · rw [hval]
    exact binary64_roundsTo _ hkq (lt_of_le_of_lt hkle big3)
  · rw [hval]; exact hv

/-- For a non-negative argument math.Round yields the integer within one half,
the upper one at a tie. -/
theorem mathRound_bounds (x : ℚ) (hx : 0 ≤ x) :
    x - 1 / 2 < mathRound x ∧ mathRound x ≤ x + 1 / 2 := by
  rw [mathRound_of_nonneg x hx]
  have h1 := Int.floor_le (x + 1 / 2)
  have h2 := Int.lt_floor_add_one (x + 1 / 2)
  constructor <;> linarith

/-- A parsed amount is an unsigned 64-bit value. -/
theorem ParseUint_lt (s : String) (raw : Nat) (h : ParseUint s = (raw, none)) :
    raw < 2 ^ 64 := by
  by_cases hd : IsDecimalUint64 s
  · have hp := (ParseUint_spec s).1 hd
    rw [hp] at h
    have : decimalValue s = raw := congrArg Prod.fst h
    rw [← this]; exact hd.2.2
  · obtain ⟨v, k, hp⟩ := (ParseUint_spec s).2 hd
    rw [hp] at h
    have : some (GoError.numError "ParseUint" s k) = none := congrArg Prod.snd h
    exact Option.noConfusion this

/-! ### Evaluations in float64 arithmetic -/

/-- ETH scaling of raw = 10^18 in float64 arithmetic: 1. -/
theorem scale_ETH_one_ether :
    binary64 (mathRound (binary64 (binary64 (binary64 ((1000000000000000000 : ℕ) : ℚ) / 10000000000000000000) * 1000)) / 100) =
      (1 : ℚ) := by
  have h0 : binary64 ((1000000000000000000 : ℕ) : ℚ) = (1000000000000000000 : ℚ) := by
    rw [binary64_eq ((1000000000000000000 : ℕ) : ℚ) (7) (7812500000000000) (by norm_num) (by norm_num) (by norm_num) (by norm_num)
      (by rw [abs_lt]; constructor <;> norm_num)]
    norm_num
  have h1 : binary64 ((1000000000000000000 : ℚ) / 10000000000000000000) = ((3602879701896397 : ℚ) / 36028797018963968) := by
    rw [binary64_eq ((1000000000000000000 : ℚ) / 10000000000000000000) (-56) (7205759403792794) (by norm_num) (by norm_num) (by norm_num) (by norm_num)
      (by rw [abs_lt]; constructor <;> norm_num)]
    norm_num
  have h2 : binary64 (((3602879701896397 : ℚ) / 36028797018963968) * 1000) = (100 : ℚ) := by
    rw [binary64_eq (((3602879701896397 : ℚ) / 36028797018963968) * 1000) (-46) (7036874417766400) (by norm_num) (by norm_num) (by norm_num) (by norm_num)
      (by rw [abs_lt]; constructor <;> norm_num)]
    norm_num
  have h3 : mathRound (100 : ℚ) = (100 : ℚ) := by
    norm_num [mathRound]
  have h4 : binary64 ((100 : ℚ) / 100) = (1 : ℚ) := by
    rw [binary64_eq ((100 : ℚ) / 100) (-52) (4503599627370496) (by norm_num) (by norm_num) (by norm_num) (by norm_num)
      (by rw [abs_lt]; constructor <;> norm_num)]
    norm_num
  rw [h0, h1, h2, h3, h4]

/-- ETH scaling of raw = 5005000000000000000 in float64 arithmetic: 5. -/
theorem scale_ETH_5005000000000000000 :
    binary64 (mathRound (binary64 (binary64 (binary64 ((5005000000000000000 : ℕ) : ℚ) / 10000000000000000000) * 1000)) / 100) =
      (5 : ℚ) := by
  have h0 : binary64 ((5005000000000000000 : ℕ) : ℚ) = (5005000000000000000 : ℚ) := by
    rw [binary64_eq ((5005000000000000000 : ℕ) : ℚ) (10) (4887695312500000) (by norm_num) (by norm_num) (by norm_num) (by norm_num)
      (by rw [abs_lt]; constructor <;> norm_num)]
    norm_num
  have h1 : binary64 ((5005000000000000000 : ℚ) / 10000000000000000000) = ((2254051613498933 : ℚ) / 4503599627370496) := by
    rw [binary64_eq ((5005000000000000000 : ℚ) / 10000000000000000000) (-53) (4508103226997866) (by norm_num) (by norm_num) (by norm_num) (by norm_num)
      (by rw [abs_lt]; constructor <;> norm_num)]
    norm_num
  have h2 : binary64 (((2254051613498933 : ℚ) / 4503599627370496) * 1000) = ((8804889115230207 : ℚ) / 17592186044416) := by
    rw [binary64_eq (((2254051613498933 : ℚ) / 4503599627370496) * 1000) (-44) (8804889115230207) (by norm_num) (by norm_num) (by norm_num) (by norm_num)
      (by rw [abs_lt]; constructor <;> norm_num)]
    norm_num
  have h3 : mathRound ((8804889115230207 : ℚ) / 17592186044416) = (500 : ℚ) := by
    norm_num [mathRound]
  have h4 : binary64 ((500 : ℚ) / 100) = (5 : ℚ) := by
    rw [binary64_eq ((500 : ℚ) / 100) (-50) (5629499534213120) (by norm_num) (by norm_num) (by norm_num) (by norm_num)
      (by rw [abs_lt]; constructor <;> norm_num)]
    norm_num
  rw [h0, h1, h2, h3, h4]

/-- ETH scaling of raw = 123456789012345678 in float64 arithmetic: the float64 0.12. -/
theorem scale_ETH_123456789012345678 :
    binary64 (mathRound (binary64 (binary64 (binary64 ((123456789012345678 : ℕ) : ℚ) / 10000000000000000000) * 1000)) / 100) =
      ((1080863910568919 : ℚ) / 9007199254740992) := by
  have h0 : binary64 ((123456789012345678 : ℕ) : ℚ) = (123456789012345680 : ℚ) := by
    rw [binary64_eq ((123456789012345678 : ℕ) : ℚ) (4) (7716049313271605) (by norm_num) (by norm_num) (by norm_num) (by norm_num)
      (by rw [abs_lt]; constructor <;> norm_num)]
    norm_num
  have h1 : binary64 ((123456789012345680 : ℚ) / 10000000000000000000) = ((3558399673551091 : ℚ) / 288230376151711744) := by
    rw [binary64_eq ((123456789012345680 : ℚ) / 10000000000000000000) (-59) (7116799347102182) (by norm_num) (by norm_num) (by norm_num) (by norm_num)
      (by rw [abs_lt]; constructor <;> norm_num)]
    norm_num
  have h2 : binary64 (((3558399673551091 : ℚ) / 288230376151711744) * 1000) = ((6949999362404475 : ℚ) / 562949953421312) := by
    rw [binary64_eq (((3558399673551091 : ℚ) / 288230376151711744) * 1000) (-49) (6949999362404475) (by norm_num) (by norm_num) (by norm_num) (by norm_num)
      (by rw [abs_lt]; constructor <;> norm_num)]
    norm_num
  have h3 : mathRound ((6949999362404475 : ℚ) / 562949953421312) = (12 : ℚ) := by
    norm_num [mathRound]
  have h4 : binary64 ((12 : ℚ) / 100) = ((1080863910568919 : ℚ) / 9007199254740992) := by
    rw [binary64_eq ((12 : ℚ) / 100) (-56) (8646911284551352) (by norm_num) (by norm_num) (by norm_num) (by norm_num)
      (by rw [abs_lt]; constructor <;> norm_num)]
    norm_num
  rw [h0, h1, h2, h3, h4]

/-- ETH scaling of raw = 14999999999999999 in float64 arithmetic: the float64 0.02. -/
theorem scale_ETH_14999999999999999 :
    binary64 (mathRound (binary64 (binary64 (binary64 ((14999999999999999 : ℕ) : ℚ) / 10000000000000000000) * 1000)) / 100) =
      ((5764607523034235 : ℚ) / 288230376151711744) := by
  have h0 : binary64 ((14999999999999999 : ℕ) : ℚ) = (15000000000000000 : ℚ) := by
    rw [binary64_eq_tie ((14999999999999999 : ℕ) : ℚ) (1) (7499999999999999) (7500000000000000) (by norm_num) (by norm_num) (by norm_num) (by norm_num)
      (by norm_num) (by decide)]
    norm_num
  have h1 : binary64 ((15000000000000000 : ℚ) / 10000000000000000000) = ((3458764513820541 : ℚ) / 2305843009213693952) := by
    rw [binary64_eq ((15000000000000000 : ℚ) / 10000000000000000000) (-62) (6917529027641082) (by norm_num) (by norm_num) (by norm_num) (by norm_num)
      (by rw [abs_lt]; constructor <;> norm_num)]
    norm_num
  have h2 : binary64 (((3458764513820541 : ℚ) / 2305843009213693952) * 1000) = ((3 : ℚ) / 2) := by
    rw [binary64_eq (((3458764513820541 : ℚ) / 2305843009213693952) * 1000) (-52) (6755399441055744) (by norm_num) (by norm_num) (by norm_num) (by norm_num)
      (by rw [abs_lt]; constructor <;> norm_num)]
    norm_num
  have h3 : mathRound ((3 : ℚ) / 2) = (2 : ℚ) := by
    norm_num [mathRound]
  have h4 : binary64 ((2 : ℚ) / 100) = ((5764607523034235 : ℚ) / 288230376151711744) := by
    rw [binary64_eq ((2 : ℚ) / 100) (-58) (5764607523034235) (by norm_num) (by norm_num) (by norm_num) (by norm_num)
      (by rw [abs_lt]; constructor <;> norm_num)]
    norm_num
  rw [h0, h1, h2, h3, h4]

/-- GLA scaling of raw = 100500000 in float64 arithmetic: 1. -/
theorem scale_GLA_100500000 :
    binary64 (mathRound (binary64 (binary64 (binary64 ((100500000 : ℕ) : ℚ) / 100000000) * 100)) / 100) =
      (1 : ℚ) := by
  have h0 : binary64 ((100500000 : ℕ) : ℚ) = (100500000 : ℚ) := by
    rw [binary64_eq ((100500000 : ℕ) : ℚ) (-26) (6744440832000000) (by norm_num) (by norm_num) (by norm_num) (by norm_num)
      (by rw [abs_lt]; constructor <;> norm_num)]
    norm_num
  have h1 : binary64 ((100500000 : ℚ) / 100000000) = ((1131529406376837 : ℚ) / 1125899906842624) := by
    rw [binary64_eq ((100500000 : ℚ) / 100000000) (-52) (4526117625507348) (by norm_num) (by norm_num) (by norm_num) (by norm_num)
      (by rw [abs_lt]; constructor <;> norm_num)]
    norm_num
  have h2 : binary64 (((1131529406376837 : ℚ) / 1125899906842624) * 100) = ((7072058789855231 : ℚ) / 70368744177664) := by
    rw [binary64_eq (((1131529406376837 : ℚ) / 1125899906842624) * 100) (-46) (7072058789855231) (by norm_num) (by norm_num) (by norm_num) (by norm_num)
      (by rw [abs_lt]; constructor <;> norm_num)]
    norm_num
  have h3 : mathRound ((7072058789855231 : ℚ) / 70368744177664) = (100 : ℚ) := by
    norm_num [mathRound]
  have h4 : binary64 ((100 : ℚ) / 100) = (1 : ℚ) := by
    rw [binary64_eq ((100 : ℚ) / 100) (-52) (4503599627370496) (by norm_num) (by norm_num) (by norm_num) (by norm_num)
      (by rw [abs_lt]; constructor <;> norm_num)]
    norm_num
  rw [h0, h1, h2, h3, h4]

/-- GLA scaling of raw = 250000000 in float64 arithmetic: 2.5. -/
theorem scale_GLA_250000000 :
    binary64 (mathRound (binary64 (binary64 (binary64 ((250000000 : ℕ) : ℚ) / 100000000) * 100)) / 100) =
      ((5 : ℚ) / 2) := by
  have h0 : binary64 ((250000000 : ℕ) : ℚ) = (250000000 : ℚ) := by
    rw [binary64_eq ((250000000 : ℕ) : ℚ) (-25) (8388608000000000) (by norm_num) (by norm_num) (by norm_num) (by norm_num)
      (by rw [abs_lt]; constructor <;> norm_num)]
    norm_num
  have h1 : binary64 ((250000000 : ℚ) / 100000000) = ((5 : ℚ) / 2) := by
    rw [binary64_eq ((250000000 : ℚ) / 100000000) (-51) (5629499534213120) (by norm_num) (by norm_num) (by norm_num) (by norm_num)
      (by rw [abs_lt]; constructor <;> norm_num)]
    norm_num
  have h2 : binary64 (((5 : ℚ) / 2) * 100) = (250 : ℚ) := by
    rw [binary64_eq (((5 : ℚ) / 2) * 100) (-45) (8796093022208000) (by norm_num) (by norm_num) (by norm_num) (by norm_num)
      (by rw [abs_lt]; constructor <;> norm_num)]
    norm_num
  have h3 : mathRound (250 : ℚ) = (250 : ℚ) := by
    norm_num [mathRound]
  have h4 : binary64 ((250 : ℚ) / 100) = ((5 : ℚ) / 2) := by
    rw [binary64_eq ((250 : ℚ) / 100) (-51) (5629499534213120) (by norm_num) (by norm_num) (by norm_num) (by norm_num)
      (by rw [abs_lt]; constructor <;> norm_num)]
    norm_num
  rw [h0, h1, h2, h3, h4]

/-- The float64 0.12. -/
theorem binary64_twelve_hundredths :
    binary64 ((12 : ℚ) / 100) = ((1080863910568919 : ℚ) / 9007199254740992) := by
  have h : binary64 ((12 : ℚ) / 100) = ((1080863910568919 : ℚ) / 9007199254740992) := by
    rw [binary64_eq ((12 : ℚ) / 100) (-56) (8646911284551352) (by norm_num) (by norm_num) (by norm_num) (by norm_num)
      (by rw [abs_lt]; constructor <;> norm_num)]
    norm_num
  exact h

/-- The float64 0.02. -/
theorem binary64_two_hundredths :
    binary64 ((2 : ℚ) / 100) = ((5764607523034235 : ℚ) / 288230376151711744) := by
  have h : binary64 ((2 : ℚ) / 100) = ((5764607523034235 : ℚ) / 288230376151711744) := by
    rw [binary64_eq ((2 : ℚ) / 100) (-58) (5764607523034235) (by norm_num) (by norm_num) (by norm_num) (by norm_num)
      (by rw [abs_lt]; constructor <;> norm_num)]
    norm_num
  exact h

/-- GetAccountBalance on an unknown asset type: no request is made and the nil
response is dereferenced. -/
theorem GetAccountBalance_panics_of_unknown (httpGet : String → Except GoError Response)
    (jsonUnmarshal : ByteArray → etherscanResult → etherscanResult)
    (address : Address) (symbol : BalanceType) (hE : symbol ≠ ETH) (hG : symbol ≠ GLA) :
    GetAccountBalance httpGet jsonUnmarshal address symbol = Outcome.panics := by
  simp [GetAccountBalance, hE, hG]

/-- GetAccountBalance when the transport answered and the result field parses. -/
theorem GetAccountBalance_parsed (httpGet : String → Except GoError Response)
    (jsonUnmarshal : ByteArray → etherscanResult → etherscanResult)
    (address : Address) (symbol : BalanceType) (resp : Response) (raw : Nat)
    (h : Answered httpGet address symbol resp)
    (hp : ParseUint (jsonUnmarshal resp.Body {}).Result = (raw, none)) :
    GetAccountBalance httpGet jsonUnmarshal address symbol =
      Outcome.returns
        { RawValue := raw
          BalanceType := symbol
          PrettyBalance := some
            { Value := if symbol = ETH then
                  binary64 (mathRound (binary64
                    (binary64 (binary64 (raw : ℚ) / 10000000000000000000) * 1000)) / 100)
                else
                  binary64 (mathRound (binary64
                    (binary64 (binary64 (raw : ℚ) / 100000000) * 100)) / 100)
              Symbol := if symbol = ETH then "ETH" else "GLA"
              Name := if symbol = ETH then "Ethereum" else "Gladius" } } none := by
  rcases h with ⟨hs, hg⟩ | ⟨hs, hg⟩
  · subst hs
    simp [GetAccountBalance, assignGet, hg, hp]
  · subst hs
    have hne : GLA ≠ ETH := by decide
    simp [GetAccountBalance, assignGet, hg, hp, hne]

/-- GetAccountBalance when the transport answered and the result field does not parse. -/
theorem GetAccountBalance_unparsed (httpGet : String → Except GoError Response)
    (jsonUnmarshal : ByteArray → etherscanResult → etherscanResult)
    (address : Address) (symbol : BalanceType) (resp : Response) (v : Nat) (e : GoError)
    (h : Answered httpGet address symbol resp)
    (hp : ParseUint (jsonUnmarshal resp.Body {}).Result = (v, some e)) :
    GetAccountBalance httpGet jsonUnmarshal address symbol = Outcome.returns {} (some e) := by
  rcases h with ⟨hs, hg⟩ | ⟨hs, hg⟩
  · subst hs
    simp [GetAccountBalance, assignGet, hg, hp]
  · subst hs
    have hne : GLA ≠ ETH := by decide
    simp [GetAccountBalance, assignGet, hg, hp, hne]

/-- GetAccountBalance when the transport fails: the transport error is returned. -/
theorem GetAccountBalance_transport_error (httpGet : String → Except GoError Response)
    (jsonUnmarshal : ByteArray → etherscanResult → etherscanResult)
    (address : Address) (symbol : BalanceType) (e : GoError)
    (h : (symbol = ETH ∧ httpGet (ethBalanceURL address) = Except.error e) ∨
      (symbol = GLA ∧ httpGet (glaBalanceURL address) = Except.error e)) :
    GetAccountBalance httpGet jsonUnmarshal address symbol = Outcome.returns {} (some e) := by
  rcases h with ⟨hs, hg⟩ | ⟨hs, hg⟩
  · subst hs
    simp [GetAccountBalance, assignGet, hg]
  · subst hs
    have hne : GLA ≠ ETH := by decide
    simp [GetAccountBalance, assignGet, hg, hne]

/-- For the two known asset types GetAccountBalance never panics: it returns. -/
theorem GetAccountBalance_returns_of_known (httpGet : String → Except GoError Response)
    (jsonUnmarshal : ByteArray → etherscanResult → etherscanResult)
    (address : Address) (symbol : BalanceType) (hs : symbol = ETH ∨ symbol = GLA) :
    ∃ b err, GetAccountBalance httpGet jsonUnmarshal address symbol = Outcome.returns b err := by
  have key : ∀ url, (symbol = ETH ∧ url = ethBalanceURL address) ∨
      (symbol = GLA ∧ url = glaBalanceURL address) →
      ∃ b err, GetAccountBalance httpGet jsonUnmarshal address symbol = Outcome.returns b err := by
    intro url hurl
    cases hg : httpGet url with
    | error e =>
      refine ⟨_, _, GetAccountBalance_transport_error httpGet jsonUnmarshal address symbol e ?_⟩
      rcases hurl with ⟨h1, h2⟩ | ⟨h1, h2⟩
      · exact Or.inl ⟨h1, h2 ▸ hg⟩
      · exact Or.inr ⟨h1, h2 ▸ hg⟩
    | ok resp =>
      have ha : Answered httpGet address symbol resp := by
        rcases hurl with ⟨h1, h2⟩ | ⟨h1, h2⟩
        · exact Or.inl ⟨h1, h2 ▸ hg⟩
        · exact Or.inr ⟨h1, h2 ▸ hg⟩
      rcases hp : ParseUint (jsonUnmarshal resp.Body {}).Result with ⟨v, _ | e⟩
      · exact ⟨_, _, GetAccountBalance_parsed httpGet jsonUnmarshal address symbol resp v ha hp⟩
      · exact ⟨_, _, GetAccountBalance_unparsed httpGet jsonUnmarshal address symbol resp v e ha hp⟩
  rcases hs with hs | hs
  · exact key _ (Or.inl ⟨hs, rfl⟩)
  · exact key _ (Or.inr ⟨hs, rfl⟩)

theorem answered_replyWith_ETH (body : String) :
    Answered (replyWith body) addr0 ETH { Body := body.toUTF8 } :=
  Or.inl ⟨rfl, rfl⟩

theorem answered_replyWith_GLA (body : String) :
    Answered (replyWith body) addr0 GLA { Body := body.toUTF8 } :=
  Or.inr ⟨rfl, rfl⟩

/-- C4 fails on the code: for the asset type 2, which is neither ETH nor GLA,
no request is issued, the transport error stays nil and the response stays
nil, and GetAccountBalance panics on `resp.Body` instead of returning. -/
theorem GetAccountBalance_symbol_2_panics (httpGet : String → Except GoError Response)
    (jsonUnmarshal : ByteArray → etherscanResult → etherscanResult) (address : Address) :
    GetAccountBalance httpGet jsonUnmarshal address 2 = Outcome.panics :=
  GetAccountBalance_panics_of_unknown httpGet jsonUnmarshal address 2 (by decide) (by decide)

/-- C5, as far as it holds: for every answered ETH query whose result parses to
`raw`, the display value is round(float64(raw) / 10^19 * 1000) / 100 evaluated
in float64 arithmetic: the conversion of `raw` rounds to a float64 `x0`, the
quotient `x0 / 10^19` to `x1`, the product `x1 * 1000` to `x`, which is not
negative; `x` rounds half away from zero to the integer `k`
(`k - 1/2 ≤ x < k + 1/2`), and the quotient `k / 100` rounds to the value. -/
theorem GetAccountBalance_ETH_formula (httpGet : String → Except GoError Response)
    (jsonUnmarshal : ByteArray → etherscanResult → etherscanResult)
    (address : Address) (resp : Response) (raw : Nat)
    (hget : httpGet (ethBalanceURL address) = Except.ok resp)
    (hp : ParseUint (jsonUnmarshal resp.Body {}).Result = (raw, none)) :
    ∃ b p, ∃ x0 x1 x : ℚ, ∃ k : ℤ,
      GetAccountBalance httpGet jsonUnmarshal address ETH = Outcome.returns b none ∧
      b.RawValue = raw ∧ b.PrettyBalance = some p ∧
      RoundsTo (raw : ℚ) x0 ∧ RoundsTo (x0 / 10 ^ 19) x1 ∧ RoundsTo (x1 * 1000) x ∧
      0 ≤ x ∧ (k : ℚ) - 1 / 2 ≤ x ∧ x < k + 1 / 2 ∧
      RoundsTo ((k : ℚ) / 100) p.Value := by
  have e19 : (10 : ℚ) ^ 19 = 10000000000000000000 := by norm_num
  obtain ⟨x0, x1, x, k, h0, h1, h2, hx0, hlo, hhi, _, hval, _, _⟩ :=
    display_spec raw 10000000000000000000 1000 (ParseUint_lt _ raw hp)
      (by norm_num) (by norm_num) (by norm_num) (by norm_num)
  rw [e19]
  refine ⟨_, _, x0, x1, x, k, GetAccountBalance_parsed httpGet jsonUnmarshal address ETH resp raw
    (Or.inl ⟨rfl, hget⟩) hp, rfl, rfl, h0, h1, h2, hx0, hlo, hhi, ?_⟩
  simp only [if_true]
  exact hval

theorem GetAccountBalance_ETH_formula_witness :
    ∃ b p, ∃ x0 x1 x : ℚ, ∃ k : ℤ,
      GetAccountBalance (replyWith "") (resultIs "1000000000000000000") addr0 ETH =
        Outcome.returns b none ∧
      b.RawValue = 1000000000000000000 ∧ b.PrettyBalance = some p ∧
      RoundsTo ((1000000000000000000 : ℕ) : ℚ) x0 ∧ RoundsTo (x0 / 10 ^ 19) x1 ∧
      RoundsTo (x1 * 1000) x ∧
      0 ≤ x ∧ (k : ℚ) - 1 / 2 ≤ x ∧ x < k + 1 / 2 ∧
      RoundsTo ((k : ℚ) / 100) p.Value :=
  GetAccountBalance_ETH_formula (replyWith "") (resultIs "1000000000000000000") addr0
    { Body := "".toUTF8 } 1000000000000000000 rfl (by decide)

/-- C5 fails as stated: for raw = 10^18 the display value is 1, while
round(raw / 10^18 * 1000) / 100 is 10; and with the divisor 10^19 of the source
the formula still fails in exact arithmetic: for raw = 5005000000000000000 the
display value is 5, while round(raw / 10^19 * 1000) / 100 is 5.01. -/
theorem GetAccountBalance_ETH_one_ether :
    (∃ b p, GetAccountBalance (replyWith "") (resultIs "1000000000000000000") addr0 ETH =
        Outcome.returns b none ∧
      b.RawValue = 10 ^ 18 ∧ b.PrettyBalance = some p ∧ p.Value = 1 ∧
      mathRound (((10 ^ 18 : ℕ) : ℚ) / 10 ^ 18 * 1000) / 100 = 10 ∧
      p.Value ≠ mathRound (((10 ^ 18 : ℕ) : ℚ) / 10 ^ 18 * 1000) / 100) ∧
    (∃ b p, GetAccountBalance (replyWith "") (resultIs "5005000000000000000") addr0 ETH =
        Outcome.returns b none ∧
      b.RawValue = 5005000000000000000 ∧ b.PrettyBalance = some p ∧ p.Value = 5 ∧
      mathRound (((5005000000000000000 : ℕ) : ℚ) / 10 ^ 19 * 1000) / 100 = 501 / 100 ∧
      p.Value ≠ mathRound (((5005000000000000000 : ℕ) : ℚ) / 10 ^ 19 * 1000) / 100) := by
  constructor
  · have hp : ParseUint (resultIs "1000000000000000000" "".toUTF8 {}).Result =
        (1000000000000000000, none) := by decide
    have h := GetAccountBalance_parsed (replyWith "") (resultIs "1000000000000000000") addr0 ETH
      { Body := "".toUTF8 } 1000000000000000000 (answered_replyWith_ETH "") hp
    refine ⟨_, _, h, by norm_num, rfl, ?_, ?_, ?_⟩
    · simp only [if_true]; rw [scale_ETH_one_ether]
    · norm_num [mathRound]
    · simp only [if_true]; rw [scale_ETH_one_ether]; norm_num [mathRound]
  · have hp : ParseUint (resultIs "5005000000000000000" "".toUTF8 {}).Result =
        (5005000000000000000, none) := by decide
    have h := GetAccountBalance_parsed (replyWith "") (resultIs "5005000000000000000") addr0 ETH
      { Body := "".toUTF8 } 5005000000000000000 (answered_replyWith_ETH "") hp
    refine ⟨_, _, h, rfl, rfl, ?_, ?_, ?_⟩
    · simp only [if_true]; rw [scale_ETH_5005000000000000000]
    · norm_num [mathRound]
    · simp only [if_true]; rw [scale_ETH_5005000000000000000]; norm_num [mathRound]

/-- C6, as far as it holds: for raw = 123456789012345678 and asset type ETH the
display value is the float64 0.12: the float64 that 12 / 100 rounds to, the
number 1080863910568919 / 2^53, within 10^-17 of 0.12. -/
theorem GetAccountBalance_ETH_example (httpGet : String → Except GoError Response)
    (jsonUnmarshal : ByteArray → etherscanResult → etherscanResult)
    (address : Address) (resp : Response)
    (hget : httpGet (ethBalanceURL address) = Except.ok resp)
    (hres : (jsonUnmarshal resp.Body {}).Result = "123456789012345678") :
    ∃ b p, GetAccountBalance httpGet jsonUnmarshal address ETH = Outcome.returns b none ∧
      b.RawValue = 123456789012345678 ∧ b.PrettyBalance = some p ∧
      RoundsTo (12 / 100) p.Value ∧
      p.Value = 1080863910568919 / 2 ^ 53 ∧
      |p.Value - 12 / 100| ≤ 1 / 10 ^ 17 := by
  have hp : ParseUint (jsonUnmarshal resp.Body {}).Result = (123456789012345678, none) := by
    rw [hres]; decide
  refine ⟨_, _, GetAccountBalance_parsed httpGet jsonUnmarshal address ETH resp _
    (Or.inl ⟨rfl, hget⟩) hp, rfl, rfl, ?_, ?_, ?_⟩
  · simp only [if_true]
    rw [scale_ETH_123456789012345678, ← binary64_twelve_hundredths]
    exact binary64_roundsTo _ (by norm_num) (by norm_num)
  · simp only [if_true]
    rw [scale_ETH_123456789012345678]; norm_num
  · simp only [if_true]
    rw [scale_ETH_123456789012345678, abs_le]; constructor <;> norm_num

theorem GetAccountBalance_ETH_example_witness :
    ∃ b p, GetAccountBalance (replyWith "body") (resultIs "123456789012345678") addr0 ETH =
        Outcome.returns b none ∧
      b.RawValue = 123456789012345678 ∧ b.PrettyBalance = some p ∧
      RoundsTo (12 / 100) p.Value ∧
      p.Value = 1080863910568919 / 2 ^ 53 ∧
      |p.Value - 12 / 100| ≤ 1 / 10 ^ 17 :=
  GetAccountBalance_ETH_example (replyWith "body") (resultIs "123456789012345678") addr0
    { Body := "body".toUTF8 } rfl rfl

/-- C6 fails as stated: for raw = 123456789012345678 and asset type ETH the
display value is the float64 0.12, which is not 123.0. -/
theorem GetAccountBalance_ETH_example_not_123 :
    ∃ b p, GetAccountBalance (replyWith "") (resultIs "123456789012345678") addr0 ETH =
        Outcome.returns b none ∧
      b.RawValue = 123456789012345678 ∧ b.PrettyBalance = some p ∧
      p.Value = 1080863910568919 / 2 ^ 53 ∧ p.Value ≠ 123 := by
  have hp : ParseUint (resultIs "123456789012345678" "".toUTF8 {}).Result =
      (123456789012345678, none) := by decide
  have h := GetAccountBalance_parsed (replyWith "") (resultIs "123456789012345678") addr0 ETH
    { Body := "".toUTF8 } 123456789012345678 (answered_replyWith_ETH "") hp
  refine ⟨_, _, h, rfl, rfl, ?_, ?_⟩
  · simp only [if_true]
    rw [scale_ETH_123456789012345678]; norm_num
  · simp only [if_true]
    rw [scale_ETH_123456789012345678]; norm_num

/-- C7, as far as it holds: for every answered GLA query whose result parses to
`raw`, the display value is round(float64(raw) / 10^8 * 100) / 100 evaluated in
float64 arithmetic: the conversion of `raw` rounds to a float64 `x0`, the
quotient `x0 / 10^8` to `x1`, the product `x1 * 100` to `x`, which is not
negative; `x` rounds half away from zero to the integer `k`
(`k - 1/2 ≤ x < k + 1/2`), and the quotient `k / 100` rounds to the value.
This is raw / 10^8 rounded to a hundredth up to the float64 rounding error:
`k` is within 1/2 + raw/10^6 * 2^-51 of raw / 10^6, and the value within
1/200 + (raw/10^8 + 1) * 2^-50, hence within 1/200 + 1/5000, of raw / 10^8.
For raw = 250000000 it is 2.5. -/
theorem GetAccountBalance_GLA_formula (httpGet : String → Except GoError Response)
    (jsonUnmarshal : ByteArray → etherscanResult → etherscanResult)
    (address : Address) (resp : Response) (raw : Nat)
    (hget : httpGet (glaBalanceURL address) = Except.ok resp)
    (hp : ParseUint (jsonUnmarshal resp.Body {}).Result = (raw, none)) :
    ∃ b p, ∃ x0 x1 x : ℚ, ∃ k : ℤ,
      GetAccountBalance httpGet jsonUnmarshal address GLA = Outcome.returns b none ∧
      b.RawValue = raw ∧ b.PrettyBalance = some p ∧
      RoundsTo (raw : ℚ) x0 ∧ RoundsTo (x0 / 10 ^ 8) x1 ∧ RoundsTo (x1 * 100) x ∧
      0 ≤ x ∧ (k : ℚ) - 1 / 2 ≤ x ∧ x < k + 1 / 2 ∧
      RoundsTo ((k : ℚ) / 100) p.Value ∧
      |(k : ℚ) - (raw : ℚ) / 10 ^ 6| ≤ 1 / 2 + (raw : ℚ) / 10 ^ 6 / 2 ^ 51 ∧
      |p.Value - (raw : ℚ) / 10 ^ 8| ≤ 1 / 200 + ((raw : ℚ) / 10 ^ 8 + 1) / 2 ^ 50 ∧
      |p.Value - (raw : ℚ) / 10 ^ 8| ≤ 1 / 200 + 1 / 5000 ∧
      (raw = 250000000 → p.Value = 5 / 2) := by
  have hne : GLA ≠ ETH := by decide
  have e8 : (10 : ℚ) ^ 8 = 100000000 := by norm_num
  have hraw : (raw : ℚ) < 2 ^ 64 := by exact_mod_cast ParseUint_lt _ raw hp
  obtain ⟨x0, x1, x, k, h0, h1, h2, hx0, hlo, hhi, _, hval, hk, hv⟩ :=
    display_spec raw 100000000 100 (ParseUint_lt _ raw hp)
      (by norm_num) (by norm_num) (by norm_num) (by norm_num)
  have y6 : (raw : ℚ) * 100 / 100000000 = raw / 10 ^ 6 := by norm_num; ring
  have y8 : (raw : ℚ) * 100 / 100000000 / 100 = raw / 10 ^ 8 := by norm_num; ring
  rw [y6] at hk
  rw [y8] at hv
  rw [e8]
  have hv2 : |binary64 (mathRound (binary64 (binary64 (binary64 (raw : ℚ) / 100000000) * 100)) /
      100) - (raw : ℚ) / 10 ^ 8| ≤ 1 / 200 + 1 / 5000 := by
    refine le_trans hv ?_
    have : ((raw : ℚ) / 10 ^ 8 + 1) / 2 ^ 50 ≤ 1 / 5000 := by
      rw [div_le_iff₀ (by positivity)]
      have h1 : (raw : ℚ) / 10 ^ 8 ≤ 2 ^ 64 / 10 ^ 8 :=
        div_le_div_of_nonneg_right hraw.le (by positivity)
      have h2 : (2 : ℚ) ^ 64 / 10 ^ 8 + 1 ≤ 1 / 5000 * 2 ^ 50 := by norm_num
      linarith
    linarith
  refine ⟨_, _, x0, x1, x, k, GetAccountBalance_parsed httpGet jsonUnmarshal address GLA resp raw
    (Or.inr ⟨rfl, hget⟩) hp, rfl, rfl, h0, h1, h2, hx0, hlo, hhi, ?_, hk, ?_, ?_, ?_⟩
  · simp only [if_neg hne]; exact hval
  · simp only [if_neg hne]; exact hv
  · simp only [if_neg hne]; exact hv2
  · intro hr
    subst hr
    simp only [if_neg hne]
    rw [scale_GLA_250000000]

theorem GetAccountBalance_GLA_formula_witness :
    ∃ b p, ∃ x0 x1 x : ℚ, ∃ k : ℤ,
      GetAccountBalance (replyWith "") (resultIs "250000000") addr0 GLA =
        Outcome.returns b none ∧
      b.RawValue = 250000000 ∧ b.PrettyBalance = some p ∧
      RoundsTo ((250000000 : ℕ) : ℚ) x0 ∧ RoundsTo (x0 / 10 ^ 8) x1 ∧
      RoundsTo (x1 * 100) x ∧
      0 ≤ x ∧ (k : ℚ) - 1 / 2 ≤ x ∧ x < k + 1 / 2 ∧
      RoundsTo ((k : ℚ) / 100) p.Value ∧
      |(k : ℚ) - ((250000000 : ℕ) : ℚ) / 10 ^ 6| ≤
        1 / 2 + ((250000000 : ℕ) : ℚ) / 10 ^ 6 / 2 ^ 51 ∧
      |p.Value - ((250000000 : ℕ) : ℚ) / 10 ^ 8| ≤
        1 / 200 + (((250000000 : ℕ) : ℚ) / 10 ^ 8 + 1) / 2 ^ 50 ∧
      |p.Value - ((250000000 : ℕ) : ℚ) / 10 ^ 8| ≤ 1 / 200 + 1 / 5000 ∧
      (250000000 = 250000000 → p.Value = 5 / 2) :=
  GetAccountBalance_GLA_formula (replyWith "") (resultIs "250000000") addr0
    { Body := "".toUTF8 } 250000000 rfl (by decide)

/-- C7 fails as stated: for raw = 100500000 and asset type GLA the display value
is 1, while round(raw / 10^8 * 100) / 100 in exact arithmetic, halves away
from zero, is 1.01. -/
theorem GetAccountBalance_GLA_tie :
    ∃ b p, GetAccountBalance (replyWith "") (resultIs "100500000") addr0 GLA =
        Outcome.returns b none ∧
      b.RawValue = 100500000 ∧ b.PrettyBalance = some p ∧ p.Value = 1 ∧
      mathRound (((100500000 : ℕ) : ℚ) / 10 ^ 8 * 100) / 100 = 101 / 100 ∧
      p.Value ≠ mathRound (((100500000 : ℕ) : ℚ) / 10 ^ 8 * 100) / 100 := by
  have hne : GLA ≠ ETH := by decide
  have hp : ParseUint (resultIs "100500000" "".toUTF8 {}).Result = (100500000, none) := by
    decide
  have h := GetAccountBalance_parsed (replyWith "") (resultIs "100500000") addr0 GLA
    { Body := "".toUTF8 } 100500000 (answered_replyWith_GLA "") hp
  refine ⟨_, _, h, rfl, rfl, ?_, ?_, ?_⟩
  · simp only [if_neg hne]; rw [scale_GLA_100500000]
  · norm_num [mathRound]
  · simp only [if_neg hne]; rw [scale_GLA_100500000]; norm_num [mathRound]

/-- C9, as far as it holds: for every answered ETH query whose result parses to
`raw`, the display value is raw scaled by the 18-decimal convention and rounded
to 2 decimal places up to the float64 rounding error: it is the float64 that
`k / 100` rounds to, for an integer `k` that is not negative and within
1/2 + raw/10^16 * 2^-51 of raw / 10^16, and it is within
1/200 + (raw/10^18 + 1) * 2^-50, hence within 1/200 + 10^-13, of raw / 10^18. -/
theorem GetAccountBalance_ETH_nearest_hundredth (httpGet : String → Except GoError Response)
    (jsonUnmarshal : ByteArray → etherscanResult → etherscanResult)
    (address : Address) (resp : Response) (raw : Nat)
    (hget : httpGet (ethBalanceURL address) = Except.ok resp)
    (hp : ParseUint (jsonUnmarshal resp.Body {}).Result = (raw, none)) :
    ∃ b p, ∃ k : ℤ,
      GetAccountBalance httpGet jsonUnmarshal address ETH = Outcome.returns b none ∧
      b.RawValue = raw ∧ b.PrettyBalance = some p ∧
      0 ≤ k ∧ RoundsTo ((k : ℚ) / 100) p.Value ∧
      |(k : ℚ) - (raw : ℚ) / 10 ^ 16| ≤ 1 / 2 + (raw : ℚ) / 10 ^ 16 / 2 ^ 51 ∧
      |p.Value - (raw : ℚ) / 10 ^ 18| ≤ 1 / 200 + ((raw : ℚ) / 10 ^ 18 + 1) / 2 ^ 50 ∧
      |p.Value - (raw : ℚ) / 10 ^ 18| ≤ 1 / 200 + 1 / 10 ^ 13 := by
  have hraw : (raw : ℚ) < 2 ^ 64 := by exact_mod_cast ParseUint_lt _ raw hp
  obtain ⟨x0, x1, x, k, _, _, _, _, _, _, hk0, hval, hk, hv⟩ :=
    display_spec raw 10000000000000000000 1000 (ParseUint_lt _ raw hp)
      (by norm_num) (by norm_num) (by norm_num) (by norm_num)
  have y16 : (raw : ℚ) * 1000 / 10000000000000000000 = raw / 10 ^ 16 := by norm_num; ring
  have y18 : (raw : ℚ) * 1000 / 10000000000000000000 / 100 = raw / 10 ^ 18 := by
    norm_num; ring
  rw [y16] at hk
  rw [y18] at hv
  have hv2 : |binary64 (mathRound (binary64
      (binary64 (binary64 (raw : ℚ) / 10000000000000000000) * 1000)) / 100) -
        (raw : ℚ) / 10 ^ 18| ≤ 1 / 200 + 1 / 10 ^ 13 := by
    refine le_trans hv ?_
    have : ((raw : ℚ) / 10 ^ 18 + 1) / 2 ^ 50 ≤ 1 / 10 ^ 13 := by
      rw [div_le_iff₀ (by positivity)]
      have h1 : (raw : ℚ) / 10 ^ 18 ≤ 2 ^ 64 / 10 ^ 18 :=
        div_le_div_of_nonneg_right hraw.le (by positivity)
      have h2 : (2 : ℚ) ^ 64 / 10 ^ 18 + 1 ≤ 1 / 10 ^ 13 * 2 ^ 50 := by norm_num
      linarith
    linarith
  refine ⟨_, _, k, GetAccountBalance_parsed httpGet jsonUnmarshal address ETH resp raw
    (Or.inl ⟨rfl, hget⟩) hp, rfl, rfl, hk0, ?_, hk, ?_, ?_⟩
  · simp only [if_true]; exact hval
  · simp only [if_true]; exact hv
  · simp only [if_true]; exact hv2

theorem GetAccountBalance_ETH_nearest_hundredth_witness :
    ∃ b p, ∃ k : ℤ,
      GetAccountBalance (replyWith "") (resultIs "5000000000000000") addr0 ETH =
        Outcome.returns b none ∧
      b.RawValue = 5000000000000000 ∧ b.PrettyBalance = some p ∧
      0 ≤ k ∧ RoundsTo ((k : ℚ) / 100) p.Value ∧
      |(k : ℚ) - ((5000000000000000 : ℕ) : ℚ) / 10 ^ 16| ≤
        1 / 2 + ((5000000000000000 : ℕ) : ℚ) / 10 ^ 16 / 2 ^ 51 ∧
      |p.Value - ((5000000000000000 : ℕ) : ℚ) / 10 ^ 18| ≤
        1 / 200 + (((5000000000000000 : ℕ) : ℚ) / 10 ^ 18 + 1) / 2 ^ 50 ∧
      |p.Value - ((5000000000000000 : ℕ) : ℚ) / 10 ^ 18| ≤ 1 / 200 + 1 / 10 ^ 13 :=
  GetAccountBalance_ETH_nearest_hundredth (replyWith "") (resultIs "5000000000000000") addr0
    { Body := "".toUTF8 } 5000000000000000 rfl (by decide)

/-- C9 fails as stated: for raw = 14999999999999999 and asset type ETH the
display value is the float64 0.02, while round(raw / 10^16) / 100 in exact
arithmetic is 0.01, the nearest hundredth of raw / 10^18; the display value
lies above raw / 10^18 + 1/200. -/
theorem GetAccountBalance_ETH_above_half :
    ∃ b p, GetAccountBalance (replyWith "") (resultIs "14999999999999999") addr0 ETH =
        Outcome.returns b none ∧
      b.RawValue = 14999999999999999 ∧ b.PrettyBalance = some p ∧
      RoundsTo (2 / 100) p.Value ∧
      p.Value = 5764607523034235 / 2 ^ 58 ∧
      mathRound (((14999999999999999 : ℕ) : ℚ) / 10 ^ 16) / 100 = 1 / 100 ∧
      p.Value ≠ mathRound (((14999999999999999 : ℕ) : ℚ) / 10 ^ 16) / 100 ∧
      ((14999999999999999 : ℕ) : ℚ) / 10 ^ 18 + 1 / 200 < p.Value := by
  have hp : ParseUint (resultIs "14999999999999999" "".toUTF8 {}).Result =
      (14999999999999999, none) := by decide
  have h := GetAccountBalance_parsed (replyWith "") (resultIs "14999999999999999") addr0 ETH
    { Body := "".toUTF8 } 14999999999999999 (answered_replyWith_ETH "") hp
  refine ⟨_, _, h, rfl, rfl, ?_, ?_, ?_, ?_, ?_⟩
  · simp only [if_true]
    rw [scale_ETH_14999999999999999, ← binary64_two_hundredths]
    exact binary64_roundsTo _ (by norm_num) (by norm_num)
  · simp only [if_true]; rw [scale_ETH_14999999999999999]; norm_num
  · norm_num [mathRound]
  · simp only [if_true]; rw [scale_ETH_14999999999999999]; norm_num [mathRound]
  · simp only [if_true]; rw [scale_ETH_14999999999999999]; norm_num

/-- C8. For every answered balance query: when the decoded `result` field is
not a base-10 unsigned integer below 2^64 (it is empty, as after a missing
field or an undecodable body, or has a character that is not a decimal digit,
such as a minus sign, or its value does not fit in 64 bits),
GetAccountBalance returns the zero Balance with a non-nil error, never a
Balance with a nil error; and when it is such an integer, GetAccountBalance
returns a nil error and a Balance whose RawValue is that integer and whose
BalanceType is the requested asset type. -/
theorem GetAccountBalance_result_field (httpGet : String → Except GoError Response)
    (jsonUnmarshal : ByteArray → etherscanResult → etherscanResult)
    (address : Address) (symbol : BalanceType) (resp : Response)
    (h : Answered httpGet address symbol resp) :
    (¬ IsDecimalUint64 (jsonUnmarshal resp.Body {}).Result →
      (∃ e, GetAccountBalance httpGet jsonUnmarshal address symbol =
          Outcome.returns {} (some e)) ∧
      ∀ b, GetAccountBalance httpGet jsonUnmarshal address symbol ≠ Outcome.returns b none) ∧
    (IsDecimalUint64 (jsonUnmarshal resp.Body {}).Result →
      ∃ b, GetAccountBalance httpGet jsonUnmarshal address symbol = Outcome.returns b none ∧
        b.RawValue = decimalValue (jsonUnmarshal resp.Body {}).Result ∧
        b.RawValue < 2 ^ 64 ∧
        b.BalanceType = symbol) := by
  constructor
  · intro hbad
    obtain ⟨v, k, hp⟩ := (ParseUint_spec (jsonUnmarshal resp.Body {}).Result).2 hbad
    have hr := GetAccountBalance_unparsed httpGet jsonUnmarshal address symbol resp v _ h hp
    refine ⟨⟨_, hr⟩, ?_⟩
    intro b hb
    rw [hr] at hb
    injection hb with _ he
    exact Option.noConfusion he
  · intro hgood
    have hp := (ParseUint_spec (jsonUnmarshal resp.Body {}).Result).1 hgood
    exact ⟨_, GetAccountBalance_parsed httpGet jsonUnmarshal address symbol resp _ h hp,
      rfl, hgood.2.2, rfl⟩

theorem GetAccountBalance_result_field_witness :
    (Answered (replyWith "<html>") addr0 GLA { Body := "<html>".toUTF8 } ∧
      ¬ IsDecimalUint64 (decodeNothing "<html>".toUTF8 {}).Result ∧
      (∃ e, GetAccountBalance (replyWith "<html>") decodeNothing addr0 GLA =
          Outcome.returns {} (some e)) ∧
      ∀ b, GetAccountBalance (replyWith "<html>") decodeNothing addr0 GLA ≠
        Outcome.returns b none) ∧
    (Answered (replyWith "") addr0 ETH { Body := "".toUTF8 } ∧
      IsDecimalUint64 (resultIs "18446744073709551615" "".toUTF8 {}).Result ∧
      ∃ b, GetAccountBalance (replyWith "") (resultIs "18446744073709551615") addr0 ETH =
          Outcome.returns b none ∧
        b.RawValue = decimalValue (resultIs "18446744073709551615" "".toUTF8 {}).Result ∧
        b.RawValue < 2 ^ 64 ∧
        b.BalanceType = ETH) :=
  ⟨⟨answered_replyWith_GLA "<html>", by decide,
      (GetAccountBalance_result_field (replyWith "<html>") decodeNothing addr0 GLA
        { Body := "<html>".toUTF8 } (answered_replyWith_GLA "<html>")).1 (by decide)⟩,
    ⟨answered_replyWith_ETH "", by decide,
      (GetAccountBalance_result_field (replyWith "") (resultIs "18446744073709551615") addr0 ETH
        { Body := "".toUTF8 } (answered_replyWith_ETH "")).2 (by decide)⟩⟩

end blockchain
